import Mathlib

/-!
# A reference-counted shared pointer (`shared_ptr.h`)

Shallow embedding of `src/shared_ptr.h`.  The C++ heap is an explicit `State`:
control blocks and payload objects live in address-indexed tables, every
`shared_ptr` object is a slot of a handle table (so that two references to the
same handle, as in `a = a`, are the same slot), and each C++ member function is
a function `State → ... → Except Fault (State × result)`.

Conventions.
* A raw pointer is an `Option Nat`; `none` is `nullptr`.
* Dereferencing a null pointer, or a pointer to storage that holds no live
  object, is undefined behaviour in C++; the embedding stops with a `Fault`.
* `size_t` quantities (the reference count, sizes, alignments) are kept in
  `Nat`.  Every unit of a reference count is held by one `shared_ptr` object,
  which occupies storage of the same address space, and sizes and alignments
  are those of real types, so no `size_t` operation of this file wraps.
* Every payload type derives from `enable_shared_from_this`: the constructors
  call `setUp_shared_from_this` unconditionally and that function is only
  declared for such types.
* The atomic operations are executed one at a time; an interleaving of calls
  made by several threads is the list of those calls in the order in which
  they take effect (`runCalls`).
* Overload resolution.  The constructors and assignment operators written in
  the class that take another handle are templates, and a template is never
  the copy constructor or the copy assignment operator of its class.  The
  class therefore has an implicitly-declared copy constructor and copy
  assignment operator, which copy the two members and do nothing else
  (`ctor_copy_implicit`, `assign_copy_implicit`); these are what a copy between
  two handles of the same type runs.  The templates `ctor_copy` and
  `assign_copy` run only for a source of another handle type.  The
  user-declared destructor suppresses the implicit move operations, so an
  rvalue of the same type selects the templates `ctor_move` and `assign_move`.
-/

namespace Utils

/-- Ways in which an operation can fail to produce a state. -/
inductive Fault where
  /-- The C++ exception `std::bad_weak_ptr`. -/
  | bad_weak_ptr
  /-- Undefined behaviour: a member access through `nullptr`. -/
  | null_dereference
  /-- Undefined behaviour: access through a pointer to no live object
  (dangling or wild pointer, double delete, dead handle). -/
  | invalid_pointer
  /-- The layout loop did not finish within its fuel. -/
  | out_of_fuel
  /-- Undefined behaviour: control flows off the end of a function that
  returns a value. -/
  | missing_return
  deriving DecidableEq, Repr

/-- A raw pointer: `none` is `nullptr`, `some a` is the address `a`. -/
abbrev Ptr := Option Nat

/-- The deleters a control block can hold. -/
inductive Deleter where
  /-- Embedding of `DefaultDeleter<T>`: `delete p`. -/
  | default_delete
  /-- The lambda of `make_shared`: `p->~T()`, the storage is not released. -/
  | destroy_in_place
  /-- A caller-supplied deleter; only its invocation is recorded. -/
  | custom (tag : Nat)
  deriving DecidableEq, Repr

/-- The class `ControlBlock` together with the members of its two derived classes
`ControlBlockImpl` and `ControlBlockImplFused`. -/
structure ControlBlock where
  /-- Embedding of `std::atomic<size_t> mCount`. -/
  mCount : Nat
  /-- Embedding of `T* m_ptr` of the derived class. -/
  m_ptr : Ptr
  /-- Embedding of `Deleter mDeleter` of the derived class. -/
  mDeleter : Deleter
  /-- Embedding of `void* m_mem` of `ControlBlockImplFused`; `none` for `ControlBlockImpl`. -/
  m_mem : Ptr
  deriving DecidableEq, Repr

/-- The two data members of `shared_ptr<T>`. -/
structure shared_ptr where
  m_cb : Ptr
  m_ptr : Ptr
  deriving DecidableEq, Repr

/-- The `enable_shared_from_this<T>` subobject of a payload object: its only
data member is the back pointer `ControlBlock* m_cb`. -/
structure enable_shared_from_this where
  m_cb : Ptr
  deriving DecidableEq, Repr

/-- The program state. -/
structure State where
  /-- Live control blocks by address. -/
  blocks : Nat → Option ControlBlock
  /-- Live payload objects by address. -/
  objects : Nat → Option enable_shared_from_this
  /-- The `shared_ptr` objects of the program; `none` marks a destroyed one. -/
  handles : List (Option shared_ptr)
  /-- First address the allocator has not handed out yet. -/
  brk : Nat
  /-- The arguments of all deleter invocations so far, oldest first. -/
  deleted : List Ptr
  /-- The addresses of all control blocks released so far, oldest first. -/
  freed : List Nat
  /-- The stores executed by `setUp_shared_from_thisControl` so far, oldest
  first: the address of the object written to and the value stored. -/
  wired : List (Nat × Ptr)

/-- The state of a program that has not run yet. -/
def State.empty : State :=
  { blocks := fun _ => none, objects := fun _ => none, handles := [], brk := 0,
    deleted := [], freed := [], wired := [] }

/-- Point update of an address-indexed table. -/
def upd {α : Type} (f : Nat → Option α) (a : Nat) (v : Option α) : Nat → Option α :=
  fun x => if x = a then v else f x

/-- Smallest multiple of `al` that is at least `n` (`n` itself when `al = 0`). -/
def alignUp (n al : Nat) : Nat :=
  n + (al - n % al) % al

/-- The allocation function `::operator new(size, align)`: a bump allocator
that returns the next suitably aligned address and never reuses storage.  An
allocation of size zero still consumes one address, so results are distinct. -/
def operator_new (s : State) (size al : Nat) : State × Nat :=
  let mem := alignUp s.brk al
  ({ s with brk := mem + max size 1 }, mem)

/-- Creation of a payload object by user code (`new T`, or a local `T a;`).
The defaulted constructor `enable_shared_from_this() = default` gives `m_cb` no
initial value and the member has no default initialiser, so the member holds
whatever the storage held, here `indet`. -/
def new_object (s : State) (indet : Ptr) : State × Nat :=
  let (s1, p) := operator_new s 1 1
  ({ s1 with objects := upd s1.objects p (some { m_cb := indet }) }, p)

/-- Read a live handle. -/
def getHandle (s : State) (i : Nat) : Except Fault shared_ptr :=
  match s.handles[i]? with
  | some (some h) => .ok h
  | _ => .error .invalid_pointer

/-- Overwrite the members of handle `i`. -/
def setHandle (s : State) (i : Nat) (h : shared_ptr) : State :=
  { s with handles := s.handles.set i (some h) }

/-- Storage for a new `shared_ptr` object holding `h`; returns its slot. -/
def newHandle (s : State) (h : shared_ptr) : State × Nat :=
  ({ s with handles := s.handles ++ [some h] }, s.handles.length)

/-- Embedding of `ControlBlock::incref` through the pointer `cb`. -/
def incref (s : State) (cb : Ptr) : Except Fault State :=
  match cb with
  | none => .error .null_dereference
  | some a =>
    match s.blocks a with
    | none => .error .invalid_pointer
    | some b => .ok { s with blocks := upd s.blocks a (some { b with mCount := b.mCount + 1 }) }

/-- Invocation `mDeleter(m_ptr)` in the destructor of a derived control block. -/
def runDeleter (s : State) (d : Deleter) (p : Ptr) : Except Fault State :=
  match d, p with
  | .custom _, _ => .ok { s with deleted := s.deleted ++ [p] }
  | .default_delete, none => .ok { s with deleted := s.deleted ++ [p] }
  | .destroy_in_place, none => .error .null_dereference
  | _, some a =>
    match s.objects a with
    | none => .error .invalid_pointer
    | some _ => .ok { s with objects := upd s.objects a none, deleted := s.deleted ++ [p] }

/-- Embedding of `ControlBlock::decref` through the pointer `cb`: when `fetch_sub` returns 1
the block is deleted, which runs the derived destructor (the deleter) and then
releases the block. -/
def decref (s : State) (cb : Ptr) : Except Fault State :=
  match cb with
  | none => .error .null_dereference
  | some a =>
    match s.blocks a with
    | none => .error .invalid_pointer
    | some b =>
      if b.mCount = 1 then
        match runDeleter s b.mDeleter b.m_ptr with
        | .error e => .error e
        | .ok s1 => .ok { s1 with blocks := upd s1.blocks a none, freed := s1.freed ++ [a] }
      else
        .ok { s with blocks := upd s.blocks a (some { b with mCount := b.mCount - 1 }) }

/-- Embedding of `ControlBlock::getCount` through the pointer `cb`. -/
def getCount (s : State) (cb : Ptr) : Except Fault Nat :=
  match cb with
  | none => .error .null_dereference
  | some a =>
    match s.blocks a with
    | none => .error .invalid_pointer
    | some b => .ok b.mCount

/-- Embedding of `setUp_shared_from_thisControl(ptr, cb)`: the store `ptr->m_cb = cb`. -/
def setUp_shared_from_thisControl (s : State) (ptr cb : Ptr) : Except Fault State :=
  match ptr with
  | none => .error .null_dereference
  | some p =>
    match s.objects p with
    | none => .error .invalid_pointer
    | some _ =>
      .ok { s with objects := upd s.objects p (some { m_cb := cb }), wired := s.wired ++ [(p, cb)] }

/-- Embedding of `setUp_shared_from_this(ptr, cb)`: forwards to the store after a
`static_cast` to the base subobject. -/
def setUp_shared_from_this (s : State) (ptr cb : Ptr) : Except Fault State :=
  setUp_shared_from_thisControl s ptr cb

/-- Embedding of `shared_ptr(std::nullptr_t = nullptr)`. -/
def ctor_nullptr (s : State) : State × Nat :=
  newHandle s { m_cb := none, m_ptr := none }

/-- Embedding of `shared_ptr(Y* ptr)`: a new `ControlBlockImpl` with the default
deleter.  The size and alignment asked of the allocator for the block are
immaterial here; all that matters is that the block gets a fresh address. -/
def ctor_ptr (s : State) (ptr : Ptr) : Except Fault (State × Nat) :=
  let (s1, a) := operator_new s 1 1
  let s2 := { s1 with blocks := upd s1.blocks a (some (ControlBlock.mk 1 ptr .default_delete none)) }
  let (s3, i) := newHandle s2 { m_cb := some a, m_ptr := ptr }
  match setUp_shared_from_this s3 ptr (some a) with
  | .error e => .error e
  | .ok s4 => .ok (s4, i)

/-- Embedding of `shared_ptr(Y* ptr, ControlBlock* cb)`: stores both, no `incref`. -/
def ctor_ptr_cb (s : State) (ptr cb : Ptr) : Except Fault (State × Nat) :=
  let (s1, i) := newHandle s { m_cb := cb, m_ptr := ptr }
  match setUp_shared_from_this s1 ptr cb with
  | .error e => .error e
  | .ok s2 => .ok (s2, i)

/-- Embedding of `shared_ptr(Y* ptr, Deleter deleter)`. -/
def ctor_ptr_deleter (s : State) (ptr : Ptr) (d : Deleter) : Except Fault (State × Nat) :=
  let (s1, a) := operator_new s 1 1
  let s2 := { s1 with blocks := upd s1.blocks a (some (ControlBlock.mk 1 ptr d none)) }
  let (s3, i) := newHandle s2 { m_cb := some a, m_ptr := ptr }
  match setUp_shared_from_this s3 ptr (some a) with
  | .error e => .error e
  | .ok s4 => .ok (s4, i)

/-- The converting copy constructor, the template
`shared_ptr(const shared_ptr<Y>& other)` of lines 130-134.  Being a template it
is not the copy constructor of the class: it is selected only for a source of
another handle type (`Y` differs from `T`); a copy from a handle of the same
type runs `ctor_copy_implicit`. -/
def ctor_copy (s : State) (other : Nat) : Except Fault (State × Nat) :=
  match getHandle s other with
  | .error e => .error e
  | .ok o =>
    let (s1, i) := newHandle s { m_cb := o.m_cb, m_ptr := o.m_ptr }
    match incref s1 o.m_cb with
    | .error e => .error e
    | .ok s2 => .ok (s2, i)

/-- The copy constructor of `shared_ptr<T>`.  The class declares none (the
template `ctor_copy` is not one), so it is implicitly declared: it copies the
two members and calls nothing, in particular not `incref`. -/
def ctor_copy_implicit (s : State) (other : Nat) : Except Fault (State × Nat) :=
  match getHandle s other with
  | .error e => .error e
  | .ok o => .ok (newHandle s { m_cb := o.m_cb, m_ptr := o.m_ptr })

/-- Move constructor `shared_ptr(shared_ptr<Y>&& other)`. -/
def ctor_move (s : State) (other : Nat) : Except Fault (State × Nat) :=
  match getHandle s other with
  | .error e => .error e
  | .ok o =>
    let (s1, i) := newHandle s { m_cb := o.m_cb, m_ptr := o.m_ptr }
    .ok (setHandle s1 other { m_cb := none, m_ptr := none }, i)

/-- Embedding of `shared_ptr(const shared_ptr<U>& other, T* ptr)`. -/
def ctor_alias_copy (s : State) (other : Nat) (ptr : Ptr) : Except Fault (State × Nat) :=
  match getHandle s other with
  | .error e => .error e
  | .ok o =>
    let (s1, i) := newHandle s { m_cb := o.m_cb, m_ptr := ptr }
    match incref s1 o.m_cb with
    | .error e => .error e
    | .ok s2 => .ok (s2, i)

/-- Embedding of `shared_ptr(shared_ptr<U>&& other, T* ptr)`. -/
def ctor_alias_move (s : State) (other : Nat) (ptr : Ptr) : Except Fault (State × Nat) :=
  match getHandle s other with
  | .error e => .error e
  | .ok o =>
    let (s1, i) := newHandle s { m_cb := o.m_cb, m_ptr := ptr }
    .ok (setHandle s1 other { m_cb := none, m_ptr := none }, i)

/-- Destructor `~shared_ptr()`; afterwards the handle object is gone. -/
def dtor (s : State) (this : Nat) : Except Fault State :=
  match getHandle s this with
  | .error e => .error e
  | .ok h =>
    match h.m_cb with
    | none => .ok { s with handles := s.handles.set this none }
    | some a =>
      match decref s (some a) with
      | .error e => .error e
      | .ok s1 => .ok { s1 with handles := s1.handles.set this none }

/-- Embedding of `reset()`: `m_cb->decref()` without a null check, then both members null. -/
def reset (s : State) (this : Nat) : Except Fault State :=
  match getHandle s this with
  | .error e => .error e
  | .ok h =>
    match decref s h.m_cb with
    | .error e => .error e
    | .ok s1 => .ok (setHandle s1 this { m_cb := none, m_ptr := none })

/-- Embedding of `reset(Y* ptr)`. -/
def reset_ptr (s : State) (this : Nat) (ptr : Ptr) : Except Fault State :=
  match getHandle s this with
  | .error e => .error e
  | .ok h =>
    match decref s h.m_cb with
    | .error e => .error e
    | .ok s1 =>
      let (s2, a) := operator_new s1 1 1
      let s3 := { s2 with blocks := upd s2.blocks a (some (ControlBlock.mk 1 ptr .default_delete none)) }
      setUp_shared_from_this (setHandle s3 this { m_cb := some a, m_ptr := ptr }) ptr (some a)

/-- Embedding of `reset(Y* ptr, Deleter deleter)`. -/
def reset_ptr_deleter (s : State) (this : Nat) (ptr : Ptr) (d : Deleter) : Except Fault State :=
  match getHandle s this with
  | .error e => .error e
  | .ok h =>
    match decref s h.m_cb with
    | .error e => .error e
    | .ok s1 =>
      let (s2, a) := operator_new s1 1 1
      let s3 := { s2 with blocks := upd s2.blocks a (some (ControlBlock.mk 1 ptr d none)) }
      setUp_shared_from_this (setHandle s3 this { m_cb := some a, m_ptr := ptr }) ptr (some a)

/-- Embedding of `get()`. -/
def get (s : State) (this : Nat) : Except Fault Ptr :=
  match getHandle s this with
  | .error e => .error e
  | .ok h => .ok h.m_ptr

/-- Embedding of `use_count()`: `m_cb ? m_cb->getCount() : 0`. -/
def use_count (s : State) (this : Nat) : Except Fault Nat :=
  match getHandle s this with
  | .error e => .error e
  | .ok h =>
    match h.m_cb with
    | none => .ok 0
    | some a => getCount s (some a)

/-- Embedding of `unique()`: `m_cb ? m_cb->getCount() == 1 : true`. -/
def unique (s : State) (this : Nat) : Except Fault Bool :=
  match getHandle s this with
  | .error e => .error e
  | .ok h =>
    match h.m_cb with
    | none => .ok true
    | some a =>
      match getCount s (some a) with
      | .error e => .error e
      | .ok c => .ok (c == 1)

/-- Embedding of `operator==`: compares the payload pointers. -/
def op_eq (s : State) (this other : Nat) : Except Fault Bool :=
  match getHandle s this with
  | .error e => .error e
  | .ok h =>
    match getHandle s other with
    | .error e => .error e
    | .ok o => .ok (h.m_ptr == o.m_ptr)

/-- Embedding of `owner_equal`: compares the control block pointers. -/
def owner_equal (s : State) (this other : Nat) : Except Fault Bool :=
  match getHandle s this with
  | .error e => .error e
  | .ok h =>
    match getHandle s other with
    | .error e => .error e
    | .ok o => .ok (h.m_cb == o.m_cb)

/-- Embedding of `swap(other)`: two `std::swap`s on the members. -/
def swap (s : State) (this other : Nat) : Except Fault State :=
  match getHandle s this with
  | .error e => .error e
  | .ok h =>
    match getHandle s other with
    | .error e => .error e
    | .ok o => .ok (setHandle (setHandle s this o) other h)

/-- Control reaches the closing brace of a function that returns a value, in
state `s`: undefined behaviour, whatever the function did before. -/
def off_the_end (_s : State) : Except Fault State :=
  .error .missing_return

/-- The converting copy assignment, the template
`operator=(const shared_ptr<Y>& other)` of lines 143-151, selected only for a
source of another handle type; an assignment between handles of the same type
runs `assign_copy_implicit`.  The members of `other` are read after `reset()`,
as in the source.  Only the path through the first `if` has a `return`: after
the last statement control flows off the end of the function, which is
undefined behaviour. -/
def assign_copy (s : State) (this other : Nat) : Except Fault State :=
  match op_eq s other this with
  | .error e => .error e
  | .ok true => .ok s
  | .ok false =>
    match reset s this with
    | .error e => .error e
    | .ok s1 =>
      match getHandle s1 other with
      | .error e => .error e
      | .ok o =>
        match incref (setHandle s1 this { m_cb := o.m_cb, m_ptr := o.m_ptr }) o.m_cb with
        | .error e => .error e
        | .ok s2 => off_the_end s2

/-- The copy assignment operator of `shared_ptr<T>`, implicitly declared like
the copy constructor: it assigns the two members and returns `*this`; no
`reset()`, no `decref`, no `incref`. -/
def assign_copy_implicit (s : State) (this other : Nat) : Except Fault State :=
  match getHandle s this with
  | .error e => .error e
  | .ok _ =>
    match getHandle s other with
    | .error e => .error e
    | .ok o => .ok (setHandle s this { m_cb := o.m_cb, m_ptr := o.m_ptr })

/-- Move assignment `operator=(shared_ptr<Y>&& other)` of lines 153-162, which
an rvalue of the same type selects as well.  As in `assign_copy`, only the path
through the first `if` has a `return`; the working path empties `other` and
then flows off the end of the function. -/
def assign_move (s : State) (this other : Nat) : Except Fault State :=
  match op_eq s other this with
  | .error e => .error e
  | .ok true => .ok s
  | .ok false =>
    match reset s this with
    | .error e => .error e
    | .ok s1 =>
      match getHandle s1 other with
      | .error e => .error e
      | .ok o =>
        off_the_end (setHandle (setHandle s1 this { m_cb := o.m_cb, m_ptr := o.m_ptr }) other
          { m_cb := none, m_ptr := none })

/-- Embedding of `make_shared_fused(ptr, m_cb)`: `shared_ptr<T>(ptr, m_cb)`. -/
def make_shared_fused (s : State) (ptr cb : Ptr) : Except Fault (State × Nat) :=
  ctor_ptr_cb s ptr cb

/-- Embedding of `enable_shared_from_this<T>::shared_from_this()` called on the object at
address `this`. -/
def shared_from_this (s : State) (this : Nat) : Except Fault (State × Nat) :=
  match s.objects this with
  | none => .error .invalid_pointer
  | some e =>
    match e.m_cb with
    | none => .error .bad_weak_ptr
    | some a =>
      match incref s (some a) with
      | .error err => .error err
      | .ok s1 => make_shared_fused s1 (some this) (some a)

/-- The loop `while (__offset < sizeof(__counter)) __offset += alignof(T)`,
run for at most `fuel` tests of the condition. -/
def offset_loop (alignT sizeCounter : Nat) : Nat → Nat → Option Nat
  | 0, _ => none
  | fuel + 1, offset =>
    if offset < sizeCounter then offset_loop alignT sizeCounter fuel (offset + alignT)
    else some offset

/-- The value of `__offset` in `make_shared`: starts at `alignof(T)`. -/
def make_shared_offset (alignT sizeCounter : Nat) : Option Nat :=
  offset_loop alignT sizeCounter (sizeCounter + 1) alignT

/-- Embedding of `make_shared<T>(args...)` for a non-array `T`, given `alignof(T)`,
`sizeof(T)`, `sizeof(__counter)` and `alignof(__counter)`.  The constructor of
`T` leaves the back pointer with the indeterminate value `indet`. -/
def make_shared (s : State) (alignT sizeT sizeCounter alignCounter : Nat) (indet : Ptr) :
    Except Fault (State × Nat) :=
  match make_shared_offset alignT sizeCounter with
  | none => .error .out_of_fuel
  | some offset =>
    let al := max alignT alignCounter
    let size := offset + sizeT
    let (s1, mem) := operator_new s size al
    let cb := mem
    let p := mem + offset
    let s2 := { s1 with objects := upd s1.objects p (some { m_cb := indet }) }
    let counter := ControlBlock.mk 1 (some p) .destroy_in_place (some mem)
    let s3 := { s2 with blocks := upd s2.blocks cb (some counter) }
    match setUp_shared_from_this s3 (some p) (some cb) with
    | .error e => .error e
    | .ok s4 => make_shared_fused s4 (some p) (some cb)

/-- Embedding of `static_pointer_cast`, `const_pointer_cast` and `reinterpret_pointer_cast`:
`shared_ptr<T>(ptr, cast<T*>(ptr.get()))`, where `cast` is the pointer
conversion of the underlying cast expression. -/
def pointer_cast (cast : Ptr → Ptr) (s : State) (ptr : Nat) : Except Fault (State × Nat) :=
  match get s ptr with
  | .error e => .error e
  | .ok p => ctor_alias_copy s ptr (cast p)

/-- Embedding of `static_pointer_cast<T>(ptr)`. -/
def static_pointer_cast (cast : Ptr → Ptr) (s : State) (ptr : Nat) :
    Except Fault (State × Nat) :=
  pointer_cast cast s ptr

/-- Embedding of `const_pointer_cast<T>(ptr)`: the address is unchanged. -/
def const_pointer_cast (s : State) (ptr : Nat) : Except Fault (State × Nat) :=
  pointer_cast id s ptr

/-- Embedding of `reinterpret_pointer_cast<T>(ptr)`: the address is unchanged. -/
def reinterpret_pointer_cast (s : State) (ptr : Nat) : Except Fault (State × Nat) :=
  pointer_cast id s ptr

/-- Embedding of `dynamic_pointer_cast<T>(ptr)`; `cast` is the result of
`dynamic_cast<T*>` on the stored pointer, `none` when the check fails. -/
def dynamic_pointer_cast (cast : Ptr → Ptr) (s : State) (ptr : Nat) :
    Except Fault (State × Nat) :=
  match get s ptr with
  | .error e => .error e
  | .ok q =>
    match cast q with
    | some p => ctor_alias_copy s ptr (some p)
    | none => .ok (ctor_nullptr s)

/-! ## Vocabulary of the properties -/

/-- Whether the handle slot `o` holds a live handle whose `m_cb` is the address `a`. -/
def owns (a : Nat) (o : Option shared_ptr) : Bool :=
  match o with
  | some h => h.m_cb == some a
  | none => false

/-- Number of live handles of the table `hs` whose `m_cb` points to address `a`. -/
def ownerCount (hs : List (Option shared_ptr)) (a : Nat) : Nat :=
  hs.countP (owns a)

/-- The operations that keep each count equal to its number of owners: the
user-level `new T` and every completed operation of the list of `Step` except
the implicitly-declared copy constructor. -/
inductive CountingStep : State → State → Prop where
  | new_object (s : State) (indet : Ptr) : CountingStep s (new_object s indet).1
  | ctor_ptr {s s1 : State} {ptr : Ptr} {i : Nat} :
      ctor_ptr s ptr = .ok (s1, i) → CountingStep s s1
  | ctor_copy {s s1 : State} {other i : Nat} :
      ctor_copy s other = .ok (s1, i) → CountingStep s s1
  | ctor_move {s s1 : State} {other i : Nat} :
      ctor_move s other = .ok (s1, i) → CountingStep s s1
  | ctor_alias_copy {s s1 : State} {other i : Nat} {ptr : Ptr} :
      ctor_alias_copy s other ptr = .ok (s1, i) → CountingStep s s1
  | ctor_alias_move {s s1 : State} {other i : Nat} {ptr : Ptr} :
      ctor_alias_move s other ptr = .ok (s1, i) → CountingStep s s1
  | dtor {s s1 : State} {this : Nat} :
      dtor s this = .ok s1 → CountingStep s s1
  | reset {s s1 : State} {this : Nat} :
      reset s this = .ok s1 → CountingStep s s1
  | swap {s s1 : State} {this other : Nat} :
      swap s this other = .ok s1 → CountingStep s s1
  | static_pointer_cast {s s1 : State} {cast : Ptr → Ptr} {ptr i : Nat} :
      static_pointer_cast cast s ptr = .ok (s1, i) → CountingStep s s1
  | const_pointer_cast {s s1 : State} {ptr i : Nat} :
      const_pointer_cast s ptr = .ok (s1, i) → CountingStep s s1
  | reinterpret_pointer_cast {s s1 : State} {ptr i : Nat} :
      reinterpret_pointer_cast s ptr = .ok (s1, i) → CountingStep s s1
  | dynamic_pointer_cast {s s1 : State} {cast : Ptr → Ptr} {ptr i : Nat} :
      dynamic_pointer_cast cast s ptr = .ok (s1, i) → CountingStep s s1
  | make_shared {s s1 : State} {alignT sizeT sizeCounter alignCounter i : Nat} {indet : Ptr} :
      make_shared s alignT sizeT sizeCounter alignCounter indet = .ok (s1, i) → CountingStep s s1
  | shared_from_this {s s1 : State} {this i : Nat} :
      shared_from_this s this = .ok (s1, i) → CountingStep s s1

/-- One operation of a client program: the user-level `new T`, raw-pointer
construction, copy construction (the implicitly-declared copy constructor for a
source of the same type, the template for a source of another type), move
construction, rebinding copy and move construction, destruction, `reset()`,
`swap`, the four pointer casts, `make_shared` and `shared_from_this`, each run
to completion. -/
inductive Step : State → State → Prop where
  | counting {s s1 : State} : CountingStep s s1 → Step s s1
  | ctor_copy_implicit {s s1 : State} {other i : Nat} :
      ctor_copy_implicit s other = .ok (s1, i) → Step s s1

/-- States a client program can reach from the empty state. -/
inductive Reachable : State → Prop where
  | init : Reachable State.empty
  | step {s s1 : State} : Reachable s → Step s s1 → Reachable s1

/-- States a client program can reach from the empty state without copying a
handle to a handle of the same type. -/
inductive ReachableCounting : State → Prop where
  | init : ReachableCounting State.empty
  | step {s s1 : State} : ReachableCounting s → CountingStep s s1 → ReachableCounting s1

/-- Converting copy constructions (`ctor_copy`) in sequence; the handle copied
by entry `j` is slot `base + j`. -/
def copyEach (s : State) (base : Nat) : List Nat → Except Fault State
  | [] => .ok s
  | j :: js =>
    match ctor_copy s (base + j) with
    | .error e => .error e
    | .ok (s1, _) => copyEach s1 base js

/-- Destructions in sequence; entry `j` destroys slot `base + j`. -/
def destroyEach (s : State) (base : Nat) : List Nat → Except Fault State
  | [] => .ok s
  | j :: js =>
    match dtor s (base + j) with
    | .error e => .error e
    | .ok s1 => destroyEach s1 base js

/-- Each entry of a list of copy sources names a member of the family that
exists when the copy is made: the family has `n` members before the first. -/
def validSources : Nat → List Nat → Prop
  | _, [] => True
  | n, j :: js => j < n ∧ validSources (n + 1) js

/-- A family of handles over one object built with converting copies only:
`shared_ptr(ptr)` followed by one converting copy construction (`ctor_copy`,
the source has another handle type than the copy) per entry of `srcs`.  The
family occupies the slots from the length of the handle table of `s` on, in
order of construction.  Copies between handles of one type are not of this
kind, see `ctor_copy_implicit`. -/
def buildFamily (s : State) (ptr : Ptr) (srcs : List Nat) : Except Fault State :=
  match ctor_ptr s ptr with
  | .error e => .error e
  | .ok (s1, i) => copyEach s1 i srcs

/-- One call on a control block, made by some thread through a handle it
holds. -/
inductive Call where
  | incref
  | decref
  deriving DecidableEq, Repr

/-- An interleaving of calls of `incref` and `decref` on the control block
`cb`.  Each call is one atomic read-modify-write of `mCount`, so an execution
by concurrently running threads is the execution of its calls in the order in
which they take effect.  The `decref` that reads 1 goes on to `delete this`;
it is issued through the last handle, so no other call is in flight then.
Returns the final state and the values the `fetch_sub` of the `decref`
calls returned, in order. -/
def runCalls (s : State) (cb : Ptr) : List Call → Except Fault (State × List Nat)
  | [] => .ok (s, [])
  | .incref :: cs =>
    match incref s cb with
    | .error e => .error e
    | .ok s1 => runCalls s1 cb cs
  | .decref :: cs =>
    match getCount s cb with
    | .error e => .error e
    | .ok c =>
      match decref s cb with
      | .error e => .error e
      | .ok s1 =>
        match runCalls s1 cb cs with
        | .error e => .error e
        | .ok (s2, obs) => .ok (s2, c :: obs)

/-- Every call of the list is made by a thread that holds a handle on the
block at that moment: `n` handles exist before the first call, an `incref`
belongs to the construction of one more handle and a `decref` to the
destruction of one. -/
def handlesHeld : Nat → List Call → Prop
  | _, [] => True
  | n, .incref :: cs => 1 ≤ n ∧ handlesHeld (n + 1) cs
  | n, .decref :: cs => 1 ≤ n ∧ handlesHeld (n - 1) cs

/-- The invariant behind the count: every live block's count is its number of
owners, every live block lies below the allocation break, and no handle points
at or above the break. -/
def Inv (s : State) : Prop :=
  (∀ a b, s.blocks a = some b → b.mCount = ownerCount s.handles a) ∧
  (∀ a b, s.blocks a = some b → a < s.brk) ∧
  (∀ a, s.brk ≤ a → ownerCount s.handles a = 0)

/-- The state a successful operation leaves behind; used to write down example
runs. -/
def stateOf {α : Type} (r : Except Fault (State × α)) : State :=
  match r with
  | .ok (s, _) => s
  | .error _ => State.empty

/-- Example: user code has run `new A` and the storage of the back pointer
happened to hold null. -/
def demo_object : State := (new_object State.empty none).1

/-- Example (`main.cpp`, line 21): `shared_ptr<A> p1(new A{})`.  The object is
at address 0, the control block at address 1, `p1` is slot 0. -/
def demo_p1 : State := stateOf (ctor_ptr demo_object (some 0))

/-- Example: `shared_ptr<A> q = static_pointer_cast<A>(p1)` after `demo_p1`;
`q` is slot 1, has the type of `p1` and shares its block, whose count is 2. -/
def demo_copy : State := stateOf (static_pointer_cast id demo_p1 0)

/-- Example: `shared_ptr<A> q(p1)` after `demo_p1`, a copy between handles of
the same type; `q` is slot 1. -/
def demo_copy_implicit : State := stateOf (ctor_copy_implicit demo_p1 0)

/-- Example: `shared_ptr<A> a(new A{}); shared_ptr<A> b(new A{});`.  The
objects are at addresses 0 and 1, their control blocks at 2 and 3, `a` is slot
0 and `b` is slot 1. -/
def demo_two : State :=
  stateOf (ctor_ptr (stateOf (ctor_ptr (new_object demo_object none).1 (some 0))) (some 1))

/-- Example: `shared_ptr<A> a` (empty) after `demo_p1`; `a` is slot 1. -/
def demo_empty : State := (ctor_nullptr demo_p1).1

/-- Example (`main.cpp`, line 22): `shared_ptr<A> p2 = make_shared<A>()` after
`demo_p1`, for a payload of size 8 and alignment 8 and a control block of size
40 and alignment 8.  The block is at address 8, the object at address 48, `p2`
is slot 1. -/
def demo_p2 : State := stateOf (make_shared demo_p1 8 8 40 8 none)

/-- Example: a local object `A a;` whose storage held the non-null word 7
where the back pointer lives; no `shared_ptr` was ever built over it.  The
object is at address 0. -/
def demo_unowned : State := (new_object State.empty (some 7)).1

/-- The three layout variables at the start of the fused factories,
`make_shared` and `make_shared_for_overwrite` alike: `__offset` (starts at
`alignof(T)` and grows by `alignof(T)` while it is below `sizeof(__counter)`),
`__align = max(alignof(T), alignof(__counter))` and
`__size = __offset + sizeof(T)`, in this order. -/
def fused_layout (alignT sizeT sizeCounter alignCounter : Nat) : Option (Nat × Nat × Nat) :=
  match make_shared_offset alignT sizeCounter with
  | none => none
  | some offset => some (offset, max alignT alignCounter, offset + sizeT)

/-- Embedding of `make_shared_for_overwrite<T>()` for a non-array `T`.  Unlike
`make_shared`, the source never constructs a `T` in the storage at `p`, so the
wiring store that follows goes to storage that holds no object. -/
def make_shared_for_overwrite (s : State) (alignT sizeT sizeCounter alignCounter : Nat) :
    Except Fault (State × Nat) :=
  match fused_layout alignT sizeT sizeCounter alignCounter with
  | none => .error .out_of_fuel
  | some (offset, al, size) =>
    let (s1, mem) := operator_new s size al
    let cb := mem
    let p := mem + offset
    let counter := ControlBlock.mk 1 (some p) .destroy_in_place (some mem)
    let s2 := { s1 with blocks := upd s1.blocks cb (some counter) }
    match setUp_shared_from_this s2 (some p) (some cb) with
    | .error e => .error e
    | .ok s3 => make_shared_fused s3 (some p) (some cb)

theorem getHandle_ok_iff (s : State) (i : Nat) (h : shared_ptr) :
    getHandle s i = .ok h ↔ s.handles[i]? = some (some h) := by
  unfold getHandle
  split
  · next h' heq => simp [heq]
  · next hne =>
    constructor
    · intro hh; cases hh
    · intro hh; exact absurd hh (hne h)

theorem getHandle_of_get? {s : State} {i : Nat} {h : shared_ptr}
    (hh : s.handles[i]? = some (some h)) : getHandle s i = .ok h :=
  (getHandle_ok_iff s i h).2 hh

theorem lt_of_getHandle {s : State} {i : Nat} {h : shared_ptr}
    (hh : getHandle s i = .ok h) : i < s.handles.length := by
  rw [getHandle_ok_iff] at hh
  by_contra hlt
  rw [List.getElem?_eq_none (Nat.le_of_not_lt hlt)] at hh
  cases hh

theorem upd_same {α : Type} (f : Nat → Option α) (a : Nat) (v : Option α) :
    upd f a v a = v := by simp [upd]

theorem upd_other {α : Type} (f : Nat → Option α) (a x : Nat) (v : Option α) (hx : x ≠ a) :
    upd f a v x = f x := by simp [upd, hx]

theorem ctor_move_spec (s : State) (a : Nat) (h : shared_ptr) (ha : getHandle s a = .ok h) :
    ctor_move s a = .ok ({ s with handles := (s.handles ++ [some h]).set a (some ⟨none, none⟩) },
      s.handles.length) := by
  simp [ctor_move, ha, newHandle, setHandle]

/-! ## What each operation does to the state -/

theorem shared_from_this_spec (s : State) (obj cb : Nat) (blk : ControlBlock)
    (hobj : s.objects obj = some ⟨some cb⟩) (hblk : s.blocks cb = some blk) :
    shared_from_this s obj = .ok
      ({ s with
          blocks := upd s.blocks cb (some { blk with mCount := blk.mCount + 1 }),
          handles := s.handles ++ [some ⟨some cb, some obj⟩],
          objects := upd s.objects obj (some ⟨some cb⟩),
          wired := s.wired ++ [(obj, some cb)] }, s.handles.length) := by
  simp [shared_from_this, hobj, incref, hblk, make_shared_fused, ctor_ptr_cb, newHandle,
    setUp_shared_from_this, setUp_shared_from_thisControl]

theorem offset_loop_some (alignT sizeCounter : Nat) (ha : 0 < alignT) :
    ∀ fuel offset, sizeCounter < offset + fuel → 0 < fuel →
      ∃ r, offset_loop alignT sizeCounter fuel offset = some r := by
  intro fuel
  induction fuel with
  | zero => intro offset _ h; omega
  | succ n ih =>
    intro offset h _
    unfold offset_loop
    by_cases hlt : offset < sizeCounter
    · simp only [hlt, if_true]
      exact ih (offset + alignT) (by omega) (by omega)
    · simp [hlt]

theorem make_shared_offset_some (alignT sizeCounter : Nat) (ha : 0 < alignT) :
    ∃ r, make_shared_offset alignT sizeCounter = some r :=
  offset_loop_some alignT sizeCounter ha _ _ (by omega) (by omega)

theorem make_shared_spec (s : State) (alignT sizeT sizeCounter alignCounter offset : Nat)
    (indet : Ptr) (hoff : make_shared_offset alignT sizeCounter = some offset) :
    make_shared s alignT sizeT sizeCounter alignCounter indet = .ok
      ({ s with
          blocks := upd s.blocks (alignUp s.brk (max alignT alignCounter))
            (some ⟨1, some (alignUp s.brk (max alignT alignCounter) + offset), .destroy_in_place,
              some (alignUp s.brk (max alignT alignCounter))⟩),
          objects := upd s.objects (alignUp s.brk (max alignT alignCounter) + offset)
            (some ⟨some (alignUp s.brk (max alignT alignCounter))⟩),
          handles := s.handles ++ [some ⟨some (alignUp s.brk (max alignT alignCounter)),
            some (alignUp s.brk (max alignT alignCounter) + offset)⟩],
          brk := alignUp s.brk (max alignT alignCounter) + max (offset + sizeT) 1,
          wired := s.wired ++
            [(alignUp s.brk (max alignT alignCounter) + offset,
                some (alignUp s.brk (max alignT alignCounter))),
              (alignUp s.brk (max alignT alignCounter) + offset,
                some (alignUp s.brk (max alignT alignCounter)))] },
        s.handles.length) := by
  simp [make_shared, hoff, operator_new, make_shared_fused, ctor_ptr_cb, newHandle,
    setUp_shared_from_this, setUp_shared_from_thisControl, upd]
  funext x
  simp only [upd]
  split <;> rfl

theorem runDeleter_live (s : State) (d : Deleter) (a : Nat) (e : enable_shared_from_this)
    (hd : d = .default_delete ∨ d = .destroy_in_place) (ha : s.objects a = some e) :
    runDeleter s d (some a) = .ok
      { s with objects := upd s.objects a none, deleted := s.deleted ++ [some a] } := by
  rcases hd with hd | hd <;> subst hd <;> simp [runDeleter, ha]

theorem dtor_shared (s : State) (i cb : Nat) (p : Ptr) (b : ControlBlock)
    (hi : getHandle s i = .ok ⟨some cb, p⟩) (hb : s.blocks cb = some b) (hc : b.mCount ≠ 1) :
    dtor s i = .ok
      { s with
          blocks := upd s.blocks cb (some { b with mCount := b.mCount - 1 }),
          handles := s.handles.set i none } := by
  simp [dtor, hi, decref, hb, hc]

theorem dtor_last (s s1 : State) (i cb : Nat) (p : Ptr) (b : ControlBlock)
    (hi : getHandle s i = .ok ⟨some cb, p⟩) (hb : s.blocks cb = some b) (hc : b.mCount = 1)
    (hd : runDeleter s b.mDeleter b.m_ptr = .ok s1) :
    dtor s i = .ok
      { s1 with
          blocks := upd s1.blocks cb none,
          freed := s1.freed ++ [cb],
          handles := s1.handles.set i none } := by
  simp [dtor, hi, decref, hb, hc, hd]

theorem alignUp_ge (n al : Nat) : n ≤ alignUp n al := Nat.le_add_right _ _

theorem make_shared_ok (s : State) (alignT sizeT sizeCounter alignCounter : Nat)
    (indet : Ptr) (ha : 0 < alignT) :
    ∃ s1 cb offset, make_shared s alignT sizeT sizeCounter alignCounter indet
        = .ok (s1, s.handles.length) ∧
      s1.blocks = upd s.blocks cb (some ⟨1, some (cb + offset), .destroy_in_place, some cb⟩) ∧
      s1.objects = upd s.objects (cb + offset) (some ⟨some cb⟩) ∧
      s1.handles = s.handles ++ [some ⟨some cb, some (cb + offset)⟩] ∧
      s1.deleted = s.deleted ∧ s1.freed = s.freed := by
  obtain ⟨offset, hoff⟩ := make_shared_offset_some alignT sizeCounter ha
  exact ⟨_, _, offset, make_shared_spec s alignT sizeT sizeCounter alignCounter offset indet hoff,
    rfl, rfl, rfl, rfl, rfl⟩

theorem shared_from_this_ok (s : State) (obj cb : Nat) (blk : ControlBlock)
    (hobj : s.objects obj = some ⟨some cb⟩) (hblk : s.blocks cb = some blk) :
    ∃ s1, shared_from_this s obj = .ok (s1, s.handles.length) ∧
      s1.blocks = upd s.blocks cb (some { blk with mCount := blk.mCount + 1 }) ∧
      s1.objects = upd s.objects obj (some ⟨some cb⟩) ∧
      s1.handles = s.handles ++ [some ⟨some cb, some obj⟩] ∧
      s1.brk = s.brk ∧ s1.deleted = s.deleted ∧ s1.freed = s.freed :=
  ⟨_, shared_from_this_spec s obj cb blk hobj hblk, rfl, rfl, rfl, rfl, rfl, rfl⟩

theorem dtor_shared_ok (s : State) (i cb : Nat) (p : Ptr) (b : ControlBlock)
    (hi : getHandle s i = .ok ⟨some cb, p⟩) (hb : s.blocks cb = some b) (hc : b.mCount ≠ 1) :
    ∃ s1, dtor s i = .ok s1 ∧
      s1.blocks = upd s.blocks cb (some { b with mCount := b.mCount - 1 }) ∧
      s1.objects = s.objects ∧ s1.handles = s.handles.set i none ∧
      s1.brk = s.brk ∧ s1.deleted = s.deleted ∧ s1.freed = s.freed :=
  ⟨_, dtor_shared s i cb p b hi hb hc, rfl, rfl, rfl, rfl, rfl, rfl⟩

theorem dtor_last_ok (s : State) (i cb obj : Nat) (p : Ptr) (b : ControlBlock)
    (e : enable_shared_from_this)
    (hi : getHandle s i = .ok ⟨some cb, p⟩) (hb : s.blocks cb = some b) (hc : b.mCount = 1)
    (hd : b.mDeleter = .default_delete ∨ b.mDeleter = .destroy_in_place)
    (hp : b.m_ptr = some obj) (ho : s.objects obj = some e) :
    ∃ s1, dtor s i = .ok s1 ∧
      s1.blocks = upd s.blocks cb none ∧
      s1.objects = upd s.objects obj none ∧ s1.handles = s.handles.set i none ∧
      s1.brk = s.brk ∧ s1.deleted = s.deleted ++ [some obj] ∧ s1.freed = s.freed ++ [cb] := by
  have hd1 := runDeleter_live s b.mDeleter obj e hd ho
  rw [← hp] at hd1
  refine ⟨_, dtor_last s _ i cb p b hi hb hc hd1, rfl, rfl, rfl, rfl, ?_, rfl⟩
  simp [hp]

theorem getHandle_last (s : State) (hs : List (Option shared_ptr)) (h : shared_ptr)
    (hh : s.handles = hs ++ [some h]) : getHandle s hs.length = .ok h := by
  apply getHandle_of_get?
  rw [hh, List.getElem?_concat_length]

theorem getHandle_append {s s1 : State} {i : Nat} {h : shared_ptr}
    (l : List (Option shared_ptr)) (hh : getHandle s i = .ok h)
    (hs : s1.handles = s.handles ++ l) : getHandle s1 i = .ok h := by
  apply getHandle_of_get?
  rw [hs, List.getElem?_append_left (lt_of_getHandle hh)]
  exact (getHandle_ok_iff s i h).1 hh

theorem getHandle_set_ne {s s1 : State} {i j : Nat} {h : shared_ptr}
    (x : Option shared_ptr) (hh : getHandle s i = .ok h)
    (hs : s1.handles = s.handles.set j x) (hij : j ≠ i) : getHandle s1 i = .ok h := by
  apply getHandle_of_get?
  rw [hs, List.getElem?_set_ne hij]
  exact (getHandle_ok_iff s i h).1 hh

theorem ctor_ptr_spec (s : State) (p : Nat) (e : enable_shared_from_this)
    (hp : s.objects p = some e) :
    ctor_ptr s (some p) = .ok
      ({ s with
          blocks := upd s.blocks (alignUp s.brk 1) (some ⟨1, some p, .default_delete, none⟩),
          objects := upd s.objects p (some ⟨some (alignUp s.brk 1)⟩),
          handles := s.handles ++ [some ⟨some (alignUp s.brk 1), some p⟩],
          brk := alignUp s.brk 1 + max 1 1,
          wired := s.wired ++ [(p, some (alignUp s.brk 1))] }, s.handles.length) := by
  simp [ctor_ptr, operator_new, newHandle, setUp_shared_from_this,
    setUp_shared_from_thisControl, hp]

theorem ctor_ptr_ok (s : State) (p : Nat) (e : enable_shared_from_this)
    (hp : s.objects p = some e) :
    ∃ s1 cb, ctor_ptr s (some p) = .ok (s1, s.handles.length) ∧
      s1.blocks = upd s.blocks cb (some ⟨1, some p, .default_delete, none⟩) ∧
      s1.objects = upd s.objects p (some ⟨some cb⟩) ∧
      s1.handles = s.handles ++ [some ⟨some cb, some p⟩] ∧
      s1.deleted = s.deleted ∧ s1.freed = s.freed :=
  ⟨_, _, ctor_ptr_spec s p e hp, rfl, rfl, rfl, rfl, rfl⟩

theorem ctor_copy_spec (s : State) (j cb : Nat) (q : Ptr) (b : ControlBlock)
    (hj : getHandle s j = .ok ⟨some cb, q⟩) (hb : s.blocks cb = some b) :
    ctor_copy s j = .ok
      ({ s with
          blocks := upd s.blocks cb (some { b with mCount := b.mCount + 1 }),
          handles := s.handles ++ [some ⟨some cb, q⟩] }, s.handles.length) := by
  simp [ctor_copy, hj, newHandle, incref, hb]

theorem ctor_copy_ok (s : State) (j cb : Nat) (q : Ptr) (b : ControlBlock)
    (hj : getHandle s j = .ok ⟨some cb, q⟩) (hb : s.blocks cb = some b) :
    ∃ s1, ctor_copy s j = .ok (s1, s.handles.length) ∧
      s1.blocks = upd s.blocks cb (some { b with mCount := b.mCount + 1 }) ∧
      s1.handles = s.handles ++ [some ⟨some cb, q⟩] ∧
      s1.objects = s.objects ∧ s1.brk = s.brk ∧ s1.deleted = s.deleted ∧ s1.freed = s.freed :=
  ⟨_, ctor_copy_spec s j cb q b hj hb, rfl, rfl, rfl, rfl, rfl, rfl⟩

theorem copyEach_family (base cb : Nat) (q : Ptr) :
    ∀ (srcs : List Nat) (s : State) (n : Nat) (b : ControlBlock),
      s.handles.length = base + n →
      (∀ i, i < n → getHandle s (base + i) = .ok ⟨some cb, q⟩) →
      s.blocks cb = some b → validSources n srcs →
      ∃ s1 b1, copyEach s base srcs = .ok s1 ∧
        s1.handles.length = base + (n + srcs.length) ∧
        (∀ i, i < n + srcs.length → getHandle s1 (base + i) = .ok ⟨some cb, q⟩) ∧
        s1.blocks cb = some b1 ∧ b1.mCount = b.mCount + srcs.length ∧
        b1.m_ptr = b.m_ptr ∧ b1.mDeleter = b.mDeleter ∧
        s1.objects = s.objects ∧ s1.deleted = s.deleted ∧ s1.freed = s.freed := by
  intro srcs
  induction srcs with
  | nil =>
    intro s n b hlen hfam hb _
    exact ⟨s, b, rfl, by simpa using hlen, by simpa using hfam, hb, rfl, rfl, rfl, rfl, rfl, rfl⟩
  | cons j js ih =>
    intro s n b hlen hfam hb hv
    obtain ⟨hj, hv⟩ := hv
    obtain ⟨s0, hc, hb0, hh0, ho0, -, hd0, hf0⟩ := ctor_copy_ok s (base + j) cb q b (hfam j hj) hb
    simp only [copyEach, hc]
    obtain ⟨s1, b1, h1, hl1, hf1, hb1, hc1, hp1, hdl1, ho1, hd1, hfr1⟩ := ih s0 (n + 1)
      { b with mCount := b.mCount + 1 }
      (by rw [hh0, List.length_append, hlen]; simp; omega)
      (by
        intro i hi
        apply getHandle_of_get?
        rw [hh0]
        by_cases hin : i < n
        · have := hfam i hin
          rw [getHandle_ok_iff] at this
          rw [List.getElem?_append_left (by omega)]
          exact this
        · have : base + i = s.handles.length := by omega
          rw [this, List.getElem?_concat_length])
      (by rw [hb0, upd_same]) hv
    refine ⟨s1, b1, h1, ?_, ?_, hb1, ?_, hp1, hdl1, ?_, ?_, ?_⟩
    · rw [hl1, List.length_cons]; omega
    · intro i hi
      exact hf1 i (by rw [List.length_cons] at hi; omega)
    · rw [hc1, List.length_cons]
      show b.mCount + 1 + js.length = _
      omega
    · rw [ho1, ho0]
    · rw [hd1, hd0]
    · rw [hfr1, hf0]

theorem destroyEach_family (base cb : Nat) (q : Ptr) :
    ∀ (ds : List Nat) (s : State) (b : ControlBlock) (L : Nat → Prop),
      (∀ i, L i → getHandle s (base + i) = .ok ⟨some cb, q⟩) →
      s.blocks cb = some b → ds.Nodup → (∀ d, d ∈ ds → L d) → ds.length < b.mCount →
      ∃ s1 b1, destroyEach s base ds = .ok s1 ∧
        (∀ i, L i → i ∉ ds → getHandle s1 (base + i) = .ok ⟨some cb, q⟩) ∧
        s1.blocks cb = some b1 ∧ b1.mCount = b.mCount - ds.length ∧
        b1.m_ptr = b.m_ptr ∧ b1.mDeleter = b.mDeleter ∧
        s1.objects = s.objects ∧ s1.deleted = s.deleted ∧ s1.freed = s.freed := by
  intro ds
  induction ds with
  | nil =>
    intro s b L hfam hb _ _ _
    exact ⟨s, b, rfl, fun i hi _ => hfam i hi, hb, rfl, rfl, rfl, rfl, rfl, rfl⟩
  | cons d ds ih =>
    intro s b L hfam hb hnd hin hlt
    rw [List.length_cons] at hlt
    obtain ⟨s0, hc, hb0, ho0, hh0, -, hd0, hf0⟩ := dtor_shared_ok s (base + d) cb q b
      (hfam d (hin d (List.mem_cons_self _ _))) hb (by omega)
    simp only [destroyEach, hc]
    rw [List.nodup_cons] at hnd
    obtain ⟨s1, b1, h1, hf1, hb1, hc1, hp1, hdl1, ho1, hd1, hfr1⟩ := ih s0
      { b with mCount := b.mCount - 1 } (fun i => L i ∧ i ≠ d)
      (fun i hi => getHandle_set_ne _ (hfam i hi.1) hh0 (by have := hi.2; omega))
      (by rw [hb0, upd_same]) hnd.2
      (fun x hx => ⟨hin x (List.mem_cons_of_mem _ hx), fun hxd => hnd.1 (hxd ▸ hx)⟩)
      (by show ds.length < b.mCount - 1; omega)
    refine ⟨s1, b1, h1, ?_, hb1, ?_, hp1, hdl1, ?_, ?_, ?_⟩
    · intro i hi hni
      rw [List.mem_cons, not_or] at hni
      exact hf1 i ⟨hi, hni.1⟩ hni.2
    · rw [hc1, List.length_cons]
      show b.mCount - 1 - ds.length = _
      omega
    · rw [ho1, ho0]
    · rw [hd1, hd0]
    · rw [hfr1, hf0]

/-! ## Counting owners -/

theorem ownerCount_append_one (hs : List (Option shared_ptr)) (o : Option shared_ptr) (a : Nat) :
    ownerCount (hs ++ [o]) a = ownerCount hs a + (if owns a o = true then 1 else 0) := by
  simp [ownerCount, List.countP_append, List.countP_singleton]

theorem ownerCount_set (a : Nat) (o1 : Option shared_ptr) :
    ∀ (hs : List (Option shared_ptr)) (i : Nat) (o : Option shared_ptr), hs[i]? = some o →
      ownerCount (hs.set i o1) a + (if owns a o = true then 1 else 0)
        = ownerCount hs a + (if owns a o1 = true then 1 else 0) := by
  intro hs
  induction hs with
  | nil => intro i o h; simp at h
  | cons x xs ih =>
    intro i o h
    cases i with
    | zero =>
      simp at h
      subst h
      simp [ownerCount, List.countP_cons]
      omega
    | succ n =>
      simp at h
      have := ih n o h
      simp [ownerCount, List.countP_cons] at this ⊢
      omega

theorem owns_some (a c : Nat) (q : Ptr) : owns a (some ⟨some c, q⟩) = true ↔ c = a := by
  simp [owns]

theorem owns_null (a : Nat) (q : Ptr) : owns a (some ⟨none, q⟩) = false := by
  simp [owns]

theorem owns_dead (a : Nat) : owns a none = false := rfl

theorem Inv.frame {s s1 : State} (h : Inv s) (hb : s1.blocks = s.blocks)
    (hh : s1.handles = s.handles) (hk : s.brk ≤ s1.brk) : Inv s1 := by
  obtain ⟨h1, h2, h3⟩ := h
  refine ⟨?_, ?_, ?_⟩
  · intro a b hab; rw [hb] at hab; rw [hh]; exact h1 a b hab
  · intro a b hab; rw [hb] at hab; exact Nat.lt_of_lt_of_le (h2 a b hab) hk
  · intro a ha; rw [hh]; exact h3 a (Nat.le_trans hk ha)

theorem Inv.add_null {s s1 : State} {q : Ptr} (h : Inv s) (hb : s1.blocks = s.blocks)
    (hh : s1.handles = s.handles ++ [some ⟨none, q⟩]) (hk : s1.brk = s.brk) : Inv s1 := by
  obtain ⟨h1, h2, h3⟩ := h
  have hoc : ∀ a, ownerCount s1.handles a = ownerCount s.handles a := by
    intro a; rw [hh, ownerCount_append_one, owns_null]; simp
  refine ⟨?_, ?_, ?_⟩
  · intro a b hab; rw [hb] at hab; rw [hoc]; exact h1 a b hab
  · intro a b hab; rw [hb] at hab; rw [hk]; exact h2 a b hab
  · intro a ha; rw [hoc]; exact h3 a (by omega)

theorem Inv.add_owner {s s1 : State} {a : Nat} {b b1 : ControlBlock} {q : Ptr} (h : Inv s)
    (hab : s.blocks a = some b) (hb : s1.blocks = upd s.blocks a (some b1))
    (hc : b1.mCount = b.mCount + 1)
    (hh : s1.handles = s.handles ++ [some ⟨some a, q⟩]) (hk : s1.brk = s.brk) : Inv s1 := by
  obtain ⟨h1, h2, h3⟩ := h
  have hoc : ∀ x, ownerCount s1.handles x
      = ownerCount s.handles x + (if a = x then 1 else 0) := by
    intro x; rw [hh, ownerCount_append_one]; simp [owns_some]
  refine ⟨?_, ?_, ?_⟩
  · intro x bx hx
    rw [hb] at hx
    rw [hoc]
    by_cases hxa : x = a
    · subst hxa
      rw [upd_same] at hx
      cases hx
      rw [hc, h1 x b hab]; simp
    · rw [upd_other _ _ _ _ hxa] at hx
      rw [h1 x bx hx]
      simp [Ne.symm hxa]
  · intro x bx hx
    rw [hb] at hx
    rw [hk]
    by_cases hxa : x = a
    · subst hxa; exact h2 x b hab
    · rw [upd_other _ _ _ _ hxa] at hx; exact h2 x bx hx
  · intro x hx
    rw [hoc, h3 x (by omega)]
    have := h2 a b hab
    have hne : a ≠ x := by omega
    simp [hne]

theorem Inv.new_block {s s1 : State} {a : Nat} {b1 : ControlBlock} {q : Ptr} (h : Inv s)
    (ha : s.brk ≤ a) (ha1 : a < s1.brk) (hb : s1.blocks = upd s.blocks a (some b1))
    (hc : b1.mCount = 1)
    (hh : s1.handles = s.handles ++ [some ⟨some a, q⟩]) : Inv s1 := by
  obtain ⟨h1, h2, h3⟩ := h
  have hoc : ∀ x, ownerCount s1.handles x
      = ownerCount s.handles x + (if a = x then 1 else 0) := by
    intro x; rw [hh, ownerCount_append_one]; simp [owns_some]
  refine ⟨?_, ?_, ?_⟩
  · intro x bx hx
    rw [hb] at hx
    rw [hoc]
    by_cases hxa : x = a
    · subst hxa
      rw [upd_same] at hx
      cases hx
      rw [hc, h3 x ha]; simp
    · rw [upd_other _ _ _ _ hxa] at hx
      rw [h1 x bx hx]
      simp [Ne.symm hxa]
  · intro x bx hx
    rw [hb] at hx
    by_cases hxa : x = a
    · subst hxa; exact ha1
    · rw [upd_other _ _ _ _ hxa] at hx
      have := h2 x bx hx
      omega
  · intro x hx
    rw [hoc, h3 x (by omega)]
    have hne : a ≠ x := by omega
    simp [hne]

theorem Inv.move {s s1 : State} {j : Nat} {h : shared_ptr} {q : Ptr} (hinv : Inv s)
    (hj : s.handles[j]? = some (some h))
    (hh : s1.handles = (s.handles ++ [some (shared_ptr.mk h.m_cb q)]).set j (some ⟨none, none⟩))
    (hb : s1.blocks = s.blocks) (hk : s1.brk = s.brk) : Inv s1 := by
  obtain ⟨h1, h2, h3⟩ := hinv
  have hlt : j < s.handles.length := by
    by_contra hge
    rw [List.getElem?_eq_none (Nat.le_of_not_lt hge)] at hj
    cases hj
  have hoc : ∀ x, ownerCount s1.handles x = ownerCount s.handles x := by
    intro x
    rw [hh, List.set_append_left _ _ hlt, ownerCount_append_one]
    have := ownerCount_set x (some ⟨none, none⟩) s.handles j _ hj
    rw [owns_null] at this
    have e : owns x (some h) = owns x (some ⟨h.m_cb, q⟩) := rfl
    rw [e] at this
    simp at this ⊢
    omega
  refine ⟨?_, ?_, ?_⟩
  · intro a b hab; rw [hb] at hab; rw [hoc]; exact h1 a b hab
  · intro a b hab; rw [hb] at hab; rw [hk]; exact h2 a b hab
  · intro a ha; rw [hoc]; exact h3 a (by omega)

theorem Inv.swap {s s1 : State} {i j : Nat} {h o : shared_ptr} (hinv : Inv s)
    (hi : s.handles[i]? = some (some h)) (hj : s.handles[j]? = some (some o))
    (hh : s1.handles = (s.handles.set i (some o)).set j (some h))
    (hb : s1.blocks = s.blocks) (hk : s1.brk = s.brk) : Inv s1 := by
  obtain ⟨h1, h2, h3⟩ := hinv
  have hlt : i < s.handles.length := by
    by_contra hge
    rw [List.getElem?_eq_none (Nat.le_of_not_lt hge)] at hi
    cases hi
  have hoc : ∀ x, ownerCount s1.handles x = ownerCount s.handles x := by
    intro x
    rw [hh]
    have e1 := ownerCount_set x (some o) s.handles i _ hi
    have hj2 : (s.handles.set i (some o))[j]? = some (some o) := by
      by_cases hij : i = j
      · subst hij; rw [List.getElem?_set_self hlt]
      · rw [List.getElem?_set_ne hij]; exact hj
    have e2 := ownerCount_set x (some h) (s.handles.set i (some o)) j _ hj2
    omega
  refine ⟨?_, ?_, ?_⟩
  · intro a b hab; rw [hb] at hab; rw [hoc]; exact h1 a b hab
  · intro a b hab; rw [hb] at hab; rw [hk]; exact h2 a b hab
  · intro a ha; rw [hoc]; exact h3 a (by omega)

theorem Inv.drop_null {s s1 : State} {i : Nat} {q : Ptr} {o1 : Option shared_ptr}
    (hinv : Inv s) (hi : s.handles[i]? = some (some ⟨none, q⟩))
    (hh : s1.handles = s.handles.set i o1) (ho1 : ∀ x, owns x o1 = false)
    (hb : s1.blocks = s.blocks) (hk : s1.brk = s.brk) : Inv s1 := by
  obtain ⟨h1, h2, h3⟩ := hinv
  have hoc : ∀ x, ownerCount s1.handles x = ownerCount s.handles x := by
    intro x
    rw [hh]
    have := ownerCount_set x o1 s.handles i _ hi
    rw [owns_null, ho1] at this
    simpa using this
  refine ⟨?_, ?_, ?_⟩
  · intro a b hab; rw [hb] at hab; rw [hoc]; exact h1 a b hab
  · intro a b hab; rw [hb] at hab; rw [hk]; exact h2 a b hab
  · intro a ha; rw [hoc]; exact h3 a (by omega)

theorem Inv.drop {s s1 : State} {i a : Nat} {q : Ptr} {b b1 : ControlBlock}
    {o1 : Option shared_ptr} (hinv : Inv s)
    (hi : s.handles[i]? = some (some ⟨some a, q⟩)) (hab : s.blocks a = some b)
    (hh : s1.handles = s.handles.set i o1) (ho1 : ∀ x, owns x o1 = false)
    (hb : (b.mCount = 1 ∧ s1.blocks = upd s.blocks a none) ∨
      (b.mCount ≠ 1 ∧ s1.blocks = upd s.blocks a (some b1) ∧ b1.mCount = b.mCount - 1))
    (hk : s1.brk = s.brk) : Inv s1 := by
  obtain ⟨h1, h2, h3⟩ := hinv
  have hoc : ∀ x, ownerCount s1.handles x + (if a = x then 1 else 0)
      = ownerCount s.handles x := by
    intro x
    rw [hh]
    have := ownerCount_set x o1 s.handles i _ hi
    rw [ho1] at this
    simp [owns_some] at this ⊢
    exact this
  have hblk : ∀ x bx, s1.blocks x = some bx →
      (x ≠ a ∧ s.blocks x = some bx) ∨ (x = a ∧ b.mCount ≠ 1 ∧ bx.mCount = b.mCount - 1) := by
    intro x bx hx
    by_cases hxa : x = a
    · subst hxa
      rcases hb with ⟨_, hb⟩ | ⟨hc, hb, hb1⟩
      · rw [hb, upd_same] at hx; cases hx
      · rw [hb, upd_same] at hx; cases hx
        exact Or.inr ⟨rfl, hc, hb1⟩
    · rcases hb with ⟨_, hb⟩ | ⟨hc, hb, hb1⟩
      · rw [hb, upd_other _ _ _ _ hxa] at hx; exact Or.inl ⟨hxa, hx⟩
      · rw [hb, upd_other _ _ _ _ hxa] at hx; exact Or.inl ⟨hxa, hx⟩
  refine ⟨?_, ?_, ?_⟩
  · intro x bx hx
    have e := hoc x
    rcases hblk x bx hx with ⟨hne, hsx⟩ | ⟨heq, hc, hbx⟩
    · rw [h1 x bx hsx]
      simp [Ne.symm hne] at e
      omega
    · subst heq
      have := h1 x b hab
      simp at e
      omega
  · intro x bx hx
    rw [hk]
    rcases hblk x bx hx with ⟨_, hsx⟩ | ⟨heq, _, _⟩
    · exact h2 x bx hsx
    · subst heq; exact h2 x b hab
  · intro x hx
    have e := hoc x
    have := h3 x (by omega)
    omega

/-! ## The operations preserve the invariant -/

theorem getHandle_get? {s : State} {i : Nat} {h : shared_ptr}
    (hh : getHandle s i = .ok h) : s.handles[i]? = some (some h) :=
  (getHandle_ok_iff s i h).1 hh

theorem incref_inv {s s1 : State} {cb : Ptr} (h : incref s cb = .ok s1) :
    ∃ a b, cb = some a ∧ s.blocks a = some b ∧
      s1.blocks = upd s.blocks a (some { b with mCount := b.mCount + 1 }) ∧
      s1.handles = s.handles ∧ s1.brk = s.brk := by
  unfold incref at h
  cases cb with
  | none => cases h
  | some a =>
    cases hb : s.blocks a with
    | none => simp [hb] at h
    | some b =>
      simp only [hb] at h
      cases h
      exact ⟨a, b, rfl, hb, rfl, rfl, rfl⟩

theorem runDeleter_inv {s s1 : State} {d : Deleter} {p : Ptr} (h : runDeleter s d p = .ok s1) :
    s1.blocks = s.blocks ∧ s1.handles = s.handles ∧ s1.brk = s.brk := by
  unfold runDeleter at h
  split at h
  · cases h; exact ⟨rfl, rfl, rfl⟩
  · cases h; exact ⟨rfl, rfl, rfl⟩
  · cases h
  · split at h
    · cases h
    · cases h; exact ⟨rfl, rfl, rfl⟩

theorem decref_inv {s s1 : State} {cb : Ptr} (h : decref s cb = .ok s1) :
    ∃ a b, cb = some a ∧ s.blocks a = some b ∧ s1.handles = s.handles ∧ s1.brk = s.brk ∧
      ((b.mCount = 1 ∧ s1.blocks = upd s.blocks a none) ∨
        (b.mCount ≠ 1 ∧ s1.blocks = upd s.blocks a (some { b with mCount := b.mCount - 1 }) ∧
          ({ b with mCount := b.mCount - 1 } : ControlBlock).mCount = b.mCount - 1)) := by
  unfold decref at h
  cases cb with
  | none => cases h
  | some a =>
    cases hb : s.blocks a with
    | none => simp [hb] at h
    | some b =>
      simp only [hb] at h
      by_cases hc : b.mCount = 1
      · simp only [hc, if_true] at h
        cases hd : runDeleter s b.mDeleter b.m_ptr with
        | error e => simp [hd] at h
        | ok s0 =>
          simp only [hd] at h
          cases h
          obtain ⟨e1, e2, e3⟩ := runDeleter_inv hd
          exact ⟨a, b, rfl, hb, e2, e3, Or.inl ⟨hc, by show upd s0.blocks a none = _; rw [e1]⟩⟩
      · simp only [hc, if_false] at h
        cases h
        exact ⟨a, b, rfl, hb, rfl, rfl, Or.inr ⟨hc, rfl, rfl⟩⟩

theorem setUp_inv {s s1 : State} {ptr cb : Ptr} (h : setUp_shared_from_this s ptr cb = .ok s1) :
    s1.blocks = s.blocks ∧ s1.handles = s.handles ∧ s1.brk = s.brk := by
  unfold setUp_shared_from_this setUp_shared_from_thisControl at h
  cases ptr with
  | none => cases h
  | some p =>
    cases ho : s.objects p with
    | none => simp [ho] at h
    | some e =>
      simp only [ho] at h
      cases h
      exact ⟨rfl, rfl, rfl⟩

theorem new_object_preserves (s : State) (indet : Ptr) (h : Inv s) :
    Inv (new_object s indet).1 :=
  h.frame rfl rfl (by
    show s.brk ≤ alignUp s.brk 1 + max 1 1
    have := alignUp_ge s.brk 1
    omega)

theorem ctor_nullptr_preserves (s : State) (h : Inv s) : Inv (ctor_nullptr s).1 :=
  h.add_null rfl rfl rfl

theorem ctor_ptr_deleter_preserves {s s1 : State} {ptr : Ptr} {d : Deleter} {i : Nat}
    (h : ctor_ptr_deleter s ptr d = .ok (s1, i)) (hinv : Inv s) : Inv s1 := by
  unfold ctor_ptr_deleter at h
  simp only [operator_new, newHandle] at h
  split at h
  · cases h
  · next s4 hs4 =>
    cases h
    obtain ⟨e1, e2, e3⟩ := setUp_inv hs4
    exact hinv.new_block (alignUp_ge s.brk 1)
      (by rw [e3]; show alignUp s.brk 1 < alignUp s.brk 1 + max 1 1; omega)
      (by rw [e1]) rfl (by rw [e2])

theorem ctor_ptr_preserves {s s1 : State} {ptr : Ptr} {i : Nat}
    (h : ctor_ptr s ptr = .ok (s1, i)) (hinv : Inv s) : Inv s1 :=
  ctor_ptr_deleter_preserves (d := .default_delete) h hinv

theorem ctor_alias_copy_preserves {s s1 : State} {other i : Nat} {ptr : Ptr}
    (h : ctor_alias_copy s other ptr = .ok (s1, i)) (hinv : Inv s) : Inv s1 := by
  unfold ctor_alias_copy at h
  cases ho : getHandle s other with
  | error e => simp [ho] at h
  | ok o =>
    simp only [ho, newHandle] at h
    split at h
    · cases h
    · next s2 hs2 =>
      cases h
      obtain ⟨a, b, hcb, hab, e1, e2, e3⟩ := incref_inv hs2
      exact hinv.add_owner hab e1 rfl (by rw [e2, hcb]) e3

theorem ctor_copy_preserves {s s1 : State} {other i : Nat}
    (h : ctor_copy s other = .ok (s1, i)) (hinv : Inv s) : Inv s1 := by
  unfold ctor_copy at h
  cases ho : getHandle s other with
  | error e => simp [ho] at h
  | ok o =>
    simp only [ho, newHandle] at h
    split at h
    · cases h
    · next s2 hs2 =>
      cases h
      obtain ⟨a, b, hcb, hab, e1, e2, e3⟩ := incref_inv hs2
      exact hinv.add_owner hab e1 rfl (by rw [e2, hcb]) e3

theorem ctor_alias_move_preserves {s s1 : State} {other i : Nat} {ptr : Ptr}
    (h : ctor_alias_move s other ptr = .ok (s1, i)) (hinv : Inv s) : Inv s1 := by
  unfold ctor_alias_move at h
  cases ho : getHandle s other with
  | error e => simp [ho] at h
  | ok o =>
    simp only [ho, newHandle, setHandle] at h
    cases h
    exact hinv.move (getHandle_get? ho) rfl rfl rfl

theorem ctor_move_preserves {s s1 : State} {other i : Nat}
    (h : ctor_move s other = .ok (s1, i)) (hinv : Inv s) : Inv s1 := by
  unfold ctor_move at h
  cases ho : getHandle s other with
  | error e => simp [ho] at h
  | ok o =>
    simp only [ho, newHandle, setHandle] at h
    cases h
    exact hinv.move (getHandle_get? ho) rfl rfl rfl

theorem dtor_preserves {s s1 : State} {this : Nat}
    (h : dtor s this = .ok s1) (hinv : Inv s) : Inv s1 := by
  unfold dtor at h
  cases ho : getHandle s this with
  | error e => simp [ho] at h
  | ok o =>
    obtain ⟨cb, q⟩ := o
    simp only [ho] at h
    cases cb with
    | none =>
      simp only [] at h
      cases h
      exact hinv.drop_null (getHandle_get? ho) rfl owns_dead rfl rfl
    | some a =>
      simp only [] at h
      split at h
      · cases h
      · next s0 hs0 =>
        cases h
        obtain ⟨a1, b, hcb, hab, e2, e3, e1⟩ := decref_inv hs0
        cases hcb
        exact hinv.drop (getHandle_get? ho) hab (by rw [e2]) owns_dead e1 e3

theorem reset_preserves {s s1 : State} {this : Nat}
    (h : reset s this = .ok s1) (hinv : Inv s) : Inv s1 := by
  unfold reset at h
  cases ho : getHandle s this with
  | error e => simp [ho] at h
  | ok o =>
    simp only [ho] at h
    split at h
    · cases h
    · next s0 hs0 =>
      cases h
      obtain ⟨a1, b, hcb, hab, e2, e3, e1⟩ := decref_inv hs0
      obtain ⟨cb, q⟩ := o
      cases hcb
      exact hinv.drop (getHandle_get? ho) hab (by show (s0.handles.set _ _) = _; rw [e2])
        (fun x => owns_null x none) e1 e3

theorem swap_preserves {s s1 : State} {this other : Nat}
    (h : swap s this other = .ok s1) (hinv : Inv s) : Inv s1 := by
  unfold swap at h
  cases ht : getHandle s this with
  | error e => simp [ht] at h
  | ok t =>
    cases ho : getHandle s other with
    | error e => simp [ht, ho] at h
    | ok o =>
      simp only [ht, ho, setHandle] at h
      cases h
      exact hinv.swap (getHandle_get? ht) (getHandle_get? ho) rfl rfl rfl

theorem pointer_cast_preserves {s s1 : State} {cast : Ptr → Ptr} {ptr i : Nat}
    (h : pointer_cast cast s ptr = .ok (s1, i)) (hinv : Inv s) : Inv s1 := by
  unfold pointer_cast at h
  split at h
  · cases h
  · exact ctor_alias_copy_preserves h hinv

theorem dynamic_pointer_cast_preserves {s s1 : State} {cast : Ptr → Ptr} {ptr i : Nat}
    (h : dynamic_pointer_cast cast s ptr = .ok (s1, i)) (hinv : Inv s) : Inv s1 := by
  unfold dynamic_pointer_cast at h
  split at h
  · cases h
  · split at h
    · exact ctor_alias_copy_preserves h hinv
    · cases h
      exact ctor_nullptr_preserves s hinv

theorem ctor_ptr_cb_preserves {s s1 : State} {ptr : Ptr} {a i : Nat} {b : ControlBlock}
    {s0 : State} (hinv : Inv s0) (hab : s0.blocks a = some b)
    (hb : s.blocks = upd s0.blocks a (some { b with mCount := b.mCount + 1 }))
    (hh : s.handles = s0.handles) (hk : s.brk = s0.brk)
    (h : ctor_ptr_cb s ptr (some a) = .ok (s1, i)) : Inv s1 := by
  unfold ctor_ptr_cb at h
  simp only [newHandle] at h
  split at h
  · cases h
  · next s2 hs2 =>
    cases h
    obtain ⟨e1, e2, e3⟩ := setUp_inv hs2
    exact hinv.add_owner hab (by rw [e1]; exact hb) rfl (by rw [e2]; show _ ++ _ = _; rw [hh])
      (by rw [e3]; exact hk)

theorem shared_from_this_preserves {s s1 : State} {this i : Nat}
    (h : shared_from_this s this = .ok (s1, i)) (hinv : Inv s) : Inv s1 := by
  unfold shared_from_this at h
  split at h
  · cases h
  · split at h
    · cases h
    · next a _ =>
      split at h
      · cases h
      · next s0 hs0 =>
        obtain ⟨a1, b, hcb, hab, e1, e2, e3⟩ := incref_inv hs0
        cases hcb
        exact ctor_ptr_cb_preserves hinv hab e1 e2 e3 h

theorem make_shared_preserves {s s1 : State} {alignT sizeT sizeCounter alignCounter i : Nat}
    {indet : Ptr}
    (h : make_shared s alignT sizeT sizeCounter alignCounter indet = .ok (s1, i))
    (hinv : Inv s) : Inv s1 := by
  cases hoff : make_shared_offset alignT sizeCounter with
  | none => simp [make_shared, hoff] at h
  | some offset =>
    rw [make_shared_spec s alignT sizeT sizeCounter alignCounter offset indet hoff] at h
    cases h
    exact hinv.new_block (alignUp_ge s.brk _)
      (by show alignUp s.brk _ < alignUp s.brk _ + max (offset + sizeT) 1; omega) rfl rfl rfl

theorem CountingStep.preserves {s s1 : State} (h : CountingStep s s1) (hinv : Inv s) :
    Inv s1 := by
  cases h with
  | new_object indet => exact new_object_preserves s indet hinv
  | ctor_ptr h => exact ctor_ptr_preserves h hinv
  | ctor_copy h => exact ctor_copy_preserves h hinv
  | ctor_move h => exact ctor_move_preserves h hinv
  | ctor_alias_copy h => exact ctor_alias_copy_preserves h hinv
  | ctor_alias_move h => exact ctor_alias_move_preserves h hinv
  | dtor h => exact dtor_preserves h hinv
  | reset h => exact reset_preserves h hinv
  | swap h => exact swap_preserves h hinv
  | static_pointer_cast h => exact pointer_cast_preserves h hinv
  | const_pointer_cast h => exact pointer_cast_preserves h hinv
  | reinterpret_pointer_cast h => exact pointer_cast_preserves h hinv
  | dynamic_pointer_cast h => exact dynamic_pointer_cast_preserves h hinv
  | make_shared h => exact make_shared_preserves h hinv
  | shared_from_this h => exact shared_from_this_preserves h hinv

theorem Inv_empty : Inv State.empty := by
  refine ⟨?_, ?_, ?_⟩
  · intro a b h; cases h
  · intro a b h; cases h
  · intro a _; rfl

theorem ReachableCounting.inv {s : State} (h : ReachableCounting s) : Inv s := by
  induction h with
  | init => exact Inv_empty
  | step _ hstep ih => exact hstep.preserves ih

/-! ## Families of handles over one object -/

theorem buildFamily_ok (s : State) (p : Nat) (e : enable_shared_from_this)
    (hp : s.objects p = some e) (srcs : List Nat) (hv : validSources 1 srcs) :
    ∃ s1 cb b1, buildFamily s (some p) srcs = .ok s1 ∧
      (∀ i, i < srcs.length + 1 → getHandle s1 (s.handles.length + i) = .ok ⟨some cb, some p⟩) ∧
      s1.blocks cb = some b1 ∧ b1.mCount = srcs.length + 1 ∧
      b1.m_ptr = some p ∧ b1.mDeleter = .default_delete ∧
      s1.objects p = some ⟨some cb⟩ ∧ s1.deleted = s.deleted ∧ s1.freed = s.freed := by
  obtain ⟨s0, cb, h0, hb0, ho0, hh0, hd0, hf0⟩ := ctor_ptr_ok s p e hp
  obtain ⟨s1, b1, h1, -, hf1, hb1, hc1, hp1, hdl1, ho1, hd1, hfr1⟩ :=
    copyEach_family s.handles.length cb (some p) srcs s0 1 _
      (by rw [hh0, List.length_append]; simp)
      (by
        intro i hi
        have : i = 0 := by omega
        subst this
        exact getHandle_last s0 _ _ hh0)
      (by rw [hb0, upd_same]) hv
  refine ⟨s1, cb, b1, ?_, ?_, hb1, ?_, hp1, hdl1, ?_, ?_, ?_⟩
  · simp only [buildFamily, h0, h1]
  · intro i hi
    exact hf1 i (by omega)
  · rw [hc1]; show 1 + srcs.length = _; omega
  · rw [ho1, ho0, upd_same]
  · rw [hd1, hd0]
  · rw [hfr1, hf0]

theorem destroyEach_append (base : Nat) :
    ∀ (l1 l2 : List Nat) (s s1 : State), destroyEach s base l1 = .ok s1 →
      destroyEach s base (l1 ++ l2) = destroyEach s1 base l2 := by
  intro l1
  induction l1 with
  | nil =>
    intro l2 s s1 h
    simp only [destroyEach] at h
    cases h
    rfl
  | cons d ds ih =>
    intro l2 s s1 h
    simp only [destroyEach, List.cons_append] at h ⊢
    cases hd : dtor s (base + d) with
    | error e => rw [hd] at h; cases h
    | ok s0 =>
      rw [hd] at h
      simp only [] at h ⊢
      exact ih l2 s0 s1 h

/-! ## The claims -/

theorem demo_p1_reachable_counting : ReachableCounting demo_p1 :=
  .step (.step .init (.new_object State.empty none))
    (@CountingStep.ctor_ptr demo_object demo_p1 (some 0) 0 rfl)

theorem demo_copy_reachable_counting : ReachableCounting demo_copy :=
  .step demo_p1_reachable_counting (@CountingStep.static_pointer_cast demo_p1 demo_copy id 0 1 rfl)

theorem ReachableCounting.reachable {s : State} (h : ReachableCounting s) : Reachable s := by
  induction h with
  | init => exact .init
  | step _ hstep ih => exact .step ih (.counting hstep)

/-- If the back pointer of a live object is null, `shared_from_this` throws
`std::bad_weak_ptr`; no state is produced, so no handle and no increment. -/
theorem shared_from_this_null_back_pointer (s : State) (obj : Nat)
    (hobj : s.objects obj = some ⟨none⟩) :
    shared_from_this s obj = .error .bad_weak_ptr := by
  simp [shared_from_this, hobj]

/-- As long as no handle is copied to a handle of its own type, the count is
right: in every state reachable by user-level object creation and completed
raw-pointer, converting copy, move and rebinding constructions, destructions,
`reset()`, `swap`, pointer casts, `make_shared` and `shared_from_this`, the
count of each live control block equals the number of live handles whose
`m_cb` points to that block. -/
theorem counting_steps_keep_count (s : State) (h : ReachableCounting s) (a : Nat)
    (b : ControlBlock) (hb : s.blocks a = some b) : b.mCount = ownerCount s.handles a :=
  h.inv.1 a b hb

/-- Example of `counting_steps_keep_count`: after `new A`, `shared_ptr<A> p1(ptr)`
and a static cast of `p1` the block at address 1 is live with count 2 and has
two owners. -/
theorem counting_steps_keep_count_example :
    ReachableCounting demo_copy ∧
      demo_copy.blocks 1 = some ⟨2, some 0, .default_delete, none⟩ ∧
      2 = ownerCount demo_copy.handles 1 :=
  ⟨demo_copy_reachable_counting, rfl,
    counting_steps_keep_count demo_copy demo_copy_reachable_counting 1
      ⟨2, some 0, .default_delete, none⟩ rfl⟩

/-- Converting copies count accurately: for every `N ≥ 1` (here
`N = srcs.length + 1`), one raw-pointer construction over a live object
followed by `N - 1` converting copy constructions (`ctor_copy`), each from any
handle of the family built so far, succeeds, and `use_count()` on each of the
`N` handles returns `N`; for every `k < N`, destroying any `k` distinct handles
of the family succeeds and `use_count()` on each remaining handle returns
`N - k`.  Copies between handles of one type are not covered, see
`use_count_after_same_type_copy`. -/
theorem converting_copies_count_accuracy (s : State) (p : Nat) (e : enable_shared_from_this)
    (hp : s.objects p = some e) (N : Nat) (srcs : List Nat) (hN : srcs.length + 1 = N)
    (hv : validSources 1 srcs) :
    ∃ s1, buildFamily s (some p) srcs = .ok s1 ∧
      (∀ i, i < N → use_count s1 (s.handles.length + i) = .ok N) ∧
      ∀ (k : Nat) (ds : List Nat), k < N → ds.length = k → ds.Nodup → (∀ d, d ∈ ds → d < N) →
        ∃ s2, destroyEach s1 s.handles.length ds = .ok s2 ∧
          ∀ i, i < N → i ∉ ds → use_count s2 (s.handles.length + i) = .ok (N - k) := by
  subst hN
  obtain ⟨s1, cb, b1, h1, hf1, hb1, hc1, -, -, -, -, -⟩ := buildFamily_ok s p e hp srcs hv
  refine ⟨s1, h1, ?_, ?_⟩
  · intro i hi
    simp [use_count, hf1 i hi, getCount, hb1, hc1]
  · intro k ds hk hlen hnd hin
    obtain ⟨s2, b2, h2, hf2, hb2, hc2, -, -, -, -, -⟩ :=
      destroyEach_family s.handles.length cb (some p) ds s1 b1 (fun i => i < srcs.length + 1)
        hf1 hb1 hnd hin (by omega)
    refine ⟨s2, h2, ?_⟩
    intro i hi hni
    simp [use_count, hf2 i hi hni, getCount, hb2, hc2, hc1, hlen]

/-- Example of `converting_copies_count_accuracy`: a family of three handles,
the second copied from the first and the third from the second. -/
theorem converting_copies_count_accuracy_example :
    demo_object.objects 0 = some ⟨none⟩ ∧ validSources 1 [0, 1] ∧
    ∃ s1, buildFamily demo_object (some 0) [0, 1] = .ok s1 ∧
      (∀ i, i < 3 → use_count s1 (demo_object.handles.length + i) = .ok 3) ∧
      ∀ (k : Nat) (ds : List Nat), k < 3 → ds.length = k → ds.Nodup → (∀ d, d ∈ ds → d < 3) →
        ∃ s2, destroyEach s1 demo_object.handles.length ds = .ok s2 ∧
          ∀ i, i < 3 → i ∉ ds → use_count s2 (demo_object.handles.length + i) = .ok (3 - k) :=
  ⟨rfl, ⟨by decide, by decide, trivial⟩,
    converting_copies_count_accuracy demo_object 0 ⟨none⟩ rfl 3 [0, 1] rfl
      ⟨by decide, by decide, trivial⟩⟩

/-- Handles built by converting copies are destroyed once: for every `N ≥ 1`
and every order (a permutation of the `N` family members) in which the handles
built by one raw-pointer construction and `N - 1` converting copies
(`ctor_copy`) are destroyed, every proper
initial part of the order leaves the deleter log and the release log untouched
and the block and the payload alive, and the whole order appends exactly one
deleter invocation, on the payload, and exactly one release, of the family's
control block: both happen at the destruction of the last handle.  Copies
between handles of one type are not covered, see
`same_type_copy_destroyed_early`. -/
theorem converting_copies_destroyed_once (s : State) (p : Nat) (e : enable_shared_from_this)
    (hp : s.objects p = some e) (N : Nat) (srcs : List Nat) (hN : srcs.length + 1 = N)
    (hv : validSources 1 srcs) (order : List Nat) (hperm : order.Perm (List.range N)) :
    ∃ s1 cb, buildFamily s (some p) srcs = .ok s1 ∧
      (∀ i, i < N → getHandle s1 (s.handles.length + i) = .ok ⟨some cb, some p⟩) ∧
      s1.deleted = s.deleted ∧ s1.freed = s.freed ∧
      (∀ m, m < N → ∃ s2, destroyEach s1 s.handles.length (order.take m) = .ok s2 ∧
        s2.deleted = s.deleted ∧ s2.freed = s.freed ∧
        s2.blocks cb ≠ none ∧ s2.objects p ≠ none) ∧
      ∃ s3, destroyEach s1 s.handles.length order = .ok s3 ∧
        s3.deleted = s.deleted ++ [some p] ∧ s3.freed = s.freed ++ [cb] ∧
        s3.blocks cb = none ∧ s3.objects p = none := by
  subst hN
  obtain ⟨s1, cb, b1, h1, hf1, hb1, hc1, hp1, hdl1, ho1, hd1, hfr1⟩ :=
    buildFamily_ok s p e hp srcs hv
  have hnd : order.Nodup := hperm.nodup_iff.2 (List.nodup_range _)
  have hin : ∀ d, d ∈ order → d < srcs.length + 1 := fun d hd =>
    List.mem_range.1 (hperm.mem_iff.1 hd)
  have hlen : order.length = srcs.length + 1 := by rw [hperm.length_eq, List.length_range]
  refine ⟨s1, cb, h1, hf1, hd1, hfr1, ?_, ?_⟩
  · intro m hm
    obtain ⟨s2, b2, h2, -, hb2, -, -, -, ho2, hd2, hfr2⟩ :=
      destroyEach_family s.handles.length cb (some p) (order.take m) s1 b1
        (fun i => i < srcs.length + 1) hf1 hb1 (hnd.sublist (List.take_sublist _ _))
        (fun d hd => hin d (List.mem_of_mem_take hd))
        (by rw [List.length_take, hc1]; omega)
    refine ⟨s2, h2, by rw [hd2, hd1], by rw [hfr2, hfr1], by rw [hb2]; simp, ?_⟩
    rw [ho2, ho1]; simp
  · have hne : order ≠ [] := by
      intro h0; rw [h0] at hlen; simp at hlen
    have hsplit := List.dropLast_append_getLast hne
    have hnd2 : (order.dropLast ++ [order.getLast hne]).Nodup := by rw [hsplit]; exact hnd
    rw [List.nodup_append] at hnd2
    obtain ⟨hndd, -, hdisj⟩ := hnd2
    have hlast : order.getLast hne ∉ order.dropLast := fun hmem =>
      hdisj hmem (List.mem_singleton_self _)
    obtain ⟨s2, b2, h2, hf2, hb2, hc2, hp2, hdl2, ho2, hd2, hfr2⟩ :=
      destroyEach_family s.handles.length cb (some p) order.dropLast s1 b1
        (fun i => i < srcs.length + 1) hf1 hb1 hndd
        (fun d hd => hin d (List.mem_of_mem_dropLast hd))
        (by rw [List.length_dropLast, hc1, hlen]; omega)
    have hL := hf2 _ (hin _ (List.getLast_mem hne)) hlast
    obtain ⟨s3, h3, hb3, ho3, -, -, hd3, hfr3⟩ :=
      dtor_last_ok s2 (s.handles.length + order.getLast hne) cb p (some p) b2 ⟨some cb⟩ hL hb2
        (by rw [hc2, hc1, List.length_dropLast, hlen]; omega)
        (by rw [hdl2, hdl1]; exact Or.inl rfl) (by rw [hp2, hp1]) (by rw [ho2, ho1])
    refine ⟨s3, ?_, by rw [hd3, hd2, hd1], by rw [hfr3, hfr2, hfr1], by rw [hb3, upd_same],
      by rw [ho3, upd_same]⟩
    rw [← hsplit, destroyEach_append _ _ _ _ _ h2]
    simp only [destroyEach, h3]

/-- Example of `converting_copies_destroyed_once`: three handles destroyed in
the order third, first, second. -/
theorem converting_copies_destroyed_once_example :
    demo_object.objects 0 = some ⟨none⟩ ∧ validSources 1 [0, 1] ∧
    [2, 0, 1].Perm (List.range 3) ∧
    ∃ s1 cb, buildFamily demo_object (some 0) [0, 1] = .ok s1 ∧
      (∀ i, i < 3 → getHandle s1 (demo_object.handles.length + i) = .ok ⟨some cb, some 0⟩) ∧
      s1.deleted = demo_object.deleted ∧ s1.freed = demo_object.freed ∧
      (∀ m, m < 3 → ∃ s2, destroyEach s1 demo_object.handles.length ([2, 0, 1].take m) = .ok s2 ∧
        s2.deleted = demo_object.deleted ∧ s2.freed = demo_object.freed ∧
        s2.blocks cb ≠ none ∧ s2.objects 0 ≠ none) ∧
      ∃ s3, destroyEach s1 demo_object.handles.length [2, 0, 1] = .ok s3 ∧
        s3.deleted = demo_object.deleted ++ [some 0] ∧ s3.freed = demo_object.freed ++ [cb] ∧
        s3.blocks cb = none ∧ s3.objects 0 = none :=
  ⟨rfl, ⟨by decide, by decide, trivial⟩, by decide,
    converting_copies_destroyed_once demo_object 0 ⟨none⟩ rfl 3 [0, 1] rfl
      ⟨by decide, by decide, trivial⟩
      [2, 0, 1] (by decide)⟩

/-- C4 (move construction empties the source): for every live handle `a`
holding `h`, move-constructing `b` from `a` succeeds; afterwards `a.get()` is
null, `a.use_count()` is 0 and both members of `a` are null, `b` holds the
former members of `a`, `b.use_count()` is what `a.use_count()` was before, and
no control block has changed. -/
theorem move_construction_empties_source (s : State) (a : Nat) (h : shared_ptr)
    (ha : getHandle s a = .ok h) :
    ∃ s1 b, ctor_move s a = .ok (s1, b) ∧
      get s1 a = .ok none ∧ use_count s1 a = .ok 0 ∧
      getHandle s1 a = .ok ⟨none, none⟩ ∧
      getHandle s1 b = .ok h ∧
      use_count s1 b = use_count s a ∧
      s1.blocks = s.blocks := by
  have hlt := lt_of_getHandle ha
  refine ⟨_, _, ctor_move_spec s a h ha, ?_⟩
  have h1 : ((s.handles ++ [some h]).set a (some ⟨none, none⟩))[a]? = some (some ⟨none, none⟩) := by
    rw [List.getElem?_set_self (by simp; omega)]
  have h2 : ((s.handles ++ [some h]).set a (some ⟨none, none⟩))[s.handles.length]?
      = some (some h) := by
    rw [List.getElem?_set_ne (Nat.ne_of_lt hlt), List.getElem?_concat_length]
  simp [get, use_count, getHandle, h1, h2]
  rw [getHandle_ok_iff] at ha
  simp [ha, getCount]

/-- Witness for C4: moving from `p1` of `demo_p1`, whose count is 1. -/
theorem move_construction_empties_source_witness :
    getHandle demo_p1 0 = .ok ⟨some 1, some 0⟩ ∧ use_count demo_p1 0 = .ok 1 ∧
    ∃ s1 b, ctor_move demo_p1 0 = .ok (s1, b) ∧
      get s1 0 = .ok none ∧ use_count s1 0 = .ok 0 ∧
      getHandle s1 0 = .ok ⟨none, none⟩ ∧
      getHandle s1 b = .ok ⟨some 1, some 0⟩ ∧
      use_count s1 b = use_count demo_p1 0 ∧
      s1.blocks = demo_p1.blocks :=
  ⟨rfl, rfl, move_construction_empties_source demo_p1 0 ⟨some 1, some 0⟩ rfl⟩

/-- C5 (move assignment with equal handles), the code at the failing input:
`a` (slot 0) and `b` (slot 1) are distinct non-empty handles over the same
object; `a = std::move(b)` returns at the `other == *this` test and leaves `b`
with its control block and payload pointer, the count still 2. -/
theorem assign_move_equal_handles_keeps_source :
    getHandle demo_copy 0 = .ok ⟨some 1, some 0⟩ ∧
    getHandle demo_copy 1 = .ok ⟨some 1, some 0⟩ ∧
    ∃ s1, assign_move demo_copy 0 1 = .ok s1 ∧ getHandle s1 1 = .ok ⟨some 1, some 0⟩ ∧
      use_count s1 0 = .ok 2 :=
  ⟨rfl, rfl, demo_copy, rfl, rfl, rfl⟩

/-- C8 (unowned self-reference), the code at the failing input: the object was
created without any `shared_ptr` and its back pointer, which no constructor
writes, holds the non-null word 7; `shared_from_this()` passes the null test
and dereferences that word instead of throwing `std::bad_weak_ptr`. -/
theorem shared_from_this_unowned_not_bad_weak_ptr :
    demo_unowned.handles = [] ∧ demo_unowned.objects 0 = some ⟨some 7⟩ ∧
    shared_from_this demo_unowned 0 = .error .invalid_pointer :=
  ⟨rfl, rfl, rfl⟩

/-- C9 (owned self-reference adds exactly one owner): if the handle `P` holds
the object `obj` with the control block `cb`, the object is wired to that block
(which the raw-pointer constructor and `make_shared` establish, see
`ctor_ptr_ok` and `make_shared_ok`) and the block has count `c`, then
`shared_from_this()` succeeds and returns a handle `Q` with `Q.get()` equal to
the object and `Q.owner_equal(P)` true, and the count of the block is `c + 1`,
as seen through the block, through `Q` and through `P`. -/
theorem shared_from_this_adds_one_owner (s : State) (P obj cb : Nat) (blk : ControlBlock)
    (hP : getHandle s P = .ok ⟨some cb, some obj⟩)
    (hwired : s.objects obj = some ⟨some cb⟩)
    (hblk : s.blocks cb = some blk) :
    ∃ s1 Q, shared_from_this s obj = .ok (s1, Q) ∧
      get s1 Q = .ok (some obj) ∧ owner_equal s1 Q P = .ok true ∧
      getCount s1 (some cb) = .ok (blk.mCount + 1) ∧
      use_count s1 Q = .ok (blk.mCount + 1) ∧ use_count s1 P = .ok (blk.mCount + 1) := by
  obtain ⟨s1, h1, hb1, -, hh1, -, -, -⟩ := shared_from_this_ok s obj cb blk hwired hblk
  have hQ : getHandle s1 s.handles.length = .ok ⟨some cb, some obj⟩ := getHandle_last s1 _ _ hh1
  have hP1 : getHandle s1 P = .ok ⟨some cb, some obj⟩ := getHandle_append _ hP hh1
  refine ⟨s1, _, h1, ?_, ?_, ?_, ?_, ?_⟩
  · simp [get, hQ]
  · simp [owner_equal, hQ, hP1]
  · simp [getCount, hb1, upd]
  · simp [use_count, hQ, getCount, hb1, upd]
  · simp [use_count, hP1, getCount, hb1, upd]

/-- Witness for C9: the object owned by `p1` (raw-pointer construction, shared
once more through a static cast, count 2) and the object owned by `p2` (built by `make_shared`, count 1). -/
theorem shared_from_this_adds_one_owner_witness :
    (getHandle demo_copy 0 = .ok ⟨some 1, some 0⟩ ∧ demo_copy.objects 0 = some ⟨some 1⟩ ∧
      demo_copy.blocks 1 = some ⟨2, some 0, .default_delete, none⟩ ∧
      ∃ s1 Q, shared_from_this demo_copy 0 = .ok (s1, Q) ∧
        get s1 Q = .ok (some 0) ∧ owner_equal s1 Q 0 = .ok true ∧
        getCount s1 (some 1) = .ok 3 ∧ use_count s1 Q = .ok 3 ∧ use_count s1 0 = .ok 3) ∧
    (getHandle demo_p2 1 = .ok ⟨some 8, some 48⟩ ∧ demo_p2.objects 48 = some ⟨some 8⟩ ∧
      demo_p2.blocks 8 = some ⟨1, some 48, .destroy_in_place, some 8⟩ ∧
      ∃ s1 Q, shared_from_this demo_p2 48 = .ok (s1, Q) ∧
        get s1 Q = .ok (some 48) ∧ owner_equal s1 Q 1 = .ok true ∧
        getCount s1 (some 8) = .ok 2 ∧ use_count s1 Q = .ok 2 ∧ use_count s1 1 = .ok 2) :=
  ⟨⟨rfl, rfl, rfl, shared_from_this_adds_one_owner demo_copy 0 0 1
      ⟨2, some 0, .default_delete, none⟩ rfl rfl rfl⟩,
    ⟨rfl, rfl, rfl, shared_from_this_adds_one_owner demo_p2 1 48 8
      ⟨1, some 48, .destroy_in_place, some 8⟩ rfl rfl rfl⟩⟩

/-- C10 (fused factory scenario): for every payload type (alignment at least
1) `make_shared` succeeds and returns a handle `P2` with `use_count() == 1`;
`shared_from_this()` on the new object then succeeds and yields `P3`, the count
is 2 through both handles and `P3` shares the control block of `P2`;
destroying `P2` leaves the count at 1, runs no deleter, releases no block and
leaves the object alive; destroying `P3` then runs the deleter on the object
and releases the block, so that over the whole run the deleter log grew by
exactly the one entry for this object, after `P3` was dropped. -/
theorem fused_factory_scenario (s : State) (alignT sizeT sizeCounter alignCounter : Nat)
    (indet : Ptr) (ha : 0 < alignT) :
    ∃ s1 p2 cb obj, make_shared s alignT sizeT sizeCounter alignCounter indet = .ok (s1, p2) ∧
      getHandle s1 p2 = .ok ⟨some cb, some obj⟩ ∧ use_count s1 p2 = .ok 1 ∧
      ∃ s2 p3, shared_from_this s1 obj = .ok (s2, p3) ∧
        use_count s2 p2 = .ok 2 ∧ use_count s2 p3 = .ok 2 ∧ owner_equal s2 p3 p2 = .ok true ∧
        ∃ s3, dtor s2 p2 = .ok s3 ∧
          use_count s3 p3 = .ok 1 ∧ s3.deleted = s.deleted ∧ s3.freed = s.freed ∧
          s3.objects obj ≠ none ∧
          ∃ s4, dtor s3 p3 = .ok s4 ∧
            s4.deleted = s.deleted ++ [some obj] ∧ s4.freed = s.freed ++ [cb] ∧
            s4.objects obj = none ∧ s4.blocks cb = none := by
  obtain ⟨s1, cb, offset, h1, hb1, ho1, hh1, hd1, hf1⟩ :=
    make_shared_ok s alignT sizeT sizeCounter alignCounter indet ha
  have hP2 : getHandle s1 s.handles.length = .ok ⟨some cb, some (cb + offset)⟩ :=
    getHandle_last s1 _ _ hh1
  refine ⟨s1, _, cb, cb + offset, h1, hP2, ?_, ?_⟩
  · simp [use_count, hP2, getCount, hb1, upd]
  obtain ⟨s2, h2, hb2, ho2, hh2, -, hd2, hf2⟩ := shared_from_this_ok s1 (cb + offset) cb _
    (by rw [ho1, upd_same]) (by rw [hb1, upd_same])
  have hP3 : getHandle s2 s1.handles.length = .ok ⟨some cb, some (cb + offset)⟩ :=
    getHandle_last s2 _ _ hh2
  have hP2' : getHandle s2 s.handles.length = .ok ⟨some cb, some (cb + offset)⟩ :=
    getHandle_append _ hP2 hh2
  refine ⟨s2, _, h2, ?_, ?_, ?_, ?_⟩
  · simp [use_count, hP2', getCount, hb2, upd]
  · simp [use_count, hP3, getCount, hb2, upd]
  · simp [owner_equal, hP3, hP2']
  obtain ⟨s3, h3, hb3, ho3, hh3, -, hd3, hf3⟩ := dtor_shared_ok s2 s.handles.length cb _ _ hP2'
    (by rw [hb2, upd_same]) (by simp)
  have hP3' : getHandle s3 s1.handles.length = .ok ⟨some cb, some (cb + offset)⟩ :=
    getHandle_set_ne _ hP3 hh3 (by rw [hh1]; simp)
  refine ⟨s3, h3, ?_, ?_, ?_, ?_, ?_⟩
  · simp [use_count, hP3', getCount, hb3, upd]
  · rw [hd3, hd2, hd1]
  · rw [hf3, hf2, hf1]
  · rw [ho3, ho2, upd_same]; simp
  obtain ⟨s4, h4, hb4, ho4, -, -, hd4, hf4⟩ := dtor_last_ok s3 s1.handles.length cb (cb + offset)
    _ _ ⟨some cb⟩ hP3' (by rw [hb3, upd_same]) (by simp) (by simp) (by simp)
    (by rw [ho3, ho2, upd_same])
  refine ⟨s4, h4, ?_, ?_, ?_, ?_⟩
  · rw [hd4, hd3, hd2, hd1]
  · rw [hf4, hf3, hf2, hf1]
  · rw [ho4, upd_same]
  · rw [hb4, upd_same]

/-- Witness for C10: the run of `main.cpp`, line 22, payload alignment 8. -/
theorem fused_factory_scenario_witness :
    0 < 8 ∧
    ∃ s1 p2 cb obj, make_shared demo_p1 8 8 40 8 none = .ok (s1, p2) ∧
      getHandle s1 p2 = .ok ⟨some cb, some obj⟩ ∧ use_count s1 p2 = .ok 1 ∧
      ∃ s2 p3, shared_from_this s1 obj = .ok (s2, p3) ∧
        use_count s2 p2 = .ok 2 ∧ use_count s2 p3 = .ok 2 ∧ owner_equal s2 p3 p2 = .ok true ∧
        ∃ s3, dtor s2 p2 = .ok s3 ∧
          use_count s3 p3 = .ok 1 ∧ s3.deleted = demo_p1.deleted ∧ s3.freed = demo_p1.freed ∧
          s3.objects obj ≠ none ∧
          ∃ s4, dtor s3 p3 = .ok s4 ∧
            s4.deleted = demo_p1.deleted ++ [some obj] ∧ s4.freed = demo_p1.freed ++ [cb] ∧
            s4.objects obj = none ∧ s4.blocks cb = none :=
  ⟨by decide, fused_factory_scenario demo_p1 8 8 40 8 none (by decide)⟩

/-! ## Layout, casts and the remaining constructors -/

theorem offset_loop_result (a s : Nat) :
    ∀ fuel off r, offset_loop a s fuel off = some r →
      s ≤ r ∧ (∃ j, r = off + a * j) ∧ (r = off ∨ r < s + a) := by
  intro fuel
  induction fuel with
  | zero => intro off r h; simp [offset_loop] at h
  | succ n ih =>
    intro off r h
    unfold offset_loop at h
    by_cases hlt : off < s
    · simp only [hlt, if_true] at h
      obtain ⟨h1, ⟨j, hj⟩, h3⟩ := ih (off + a) r h
      refine ⟨h1, ⟨j + 1, by rw [hj, Nat.mul_add]; omega⟩, Or.inr ?_⟩
      rcases h3 with h3 | h3 <;> omega
    · simp only [hlt, if_false] at h
      cases h
      exact ⟨by omega, ⟨0, by simp⟩, Or.inl rfl⟩

theorem offset_loop_closed (a s : Nat) (ha : 0 < a) (fuel : Nat) (hf : s < fuel) :
    offset_loop a s fuel a = some (a * max 1 ((s + a - 1) / a)) := by
  obtain ⟨r, hr⟩ := offset_loop_some a s ha fuel a (by omega) (by omega)
  obtain ⟨h1, ⟨j, hj⟩, h3⟩ := offset_loop_result a s fuel a r hr
  rw [hr]
  congr 1
  by_cases hsa : s ≤ a
  · have hq : (s + a - 1) / a ≤ 1 := by
      rw [Nat.div_le_iff_le_mul_add_pred ha]; omega
    have hj0 : j = 0 := by
      by_contra hne
      have : a * 1 ≤ a * j := Nat.mul_le_mul_left a (by omega)
      omega
    subst hj0
    rw [Nat.max_eq_left hq]
    omega
  · have hr2 : r < s + a := by omega
    have hk : (s + a - 1) / a = j + 1 := by
      apply Nat.div_eq_of_lt_le
      · rw [Nat.add_mul, Nat.mul_comm j a]; omega
      · rw [Nat.succ_mul, Nat.add_mul, Nat.mul_comm j a]; omega
    rw [hk, Nat.max_eq_right (by omega), Nat.mul_add]
    omega

theorem make_shared_offset_closed (a s : Nat) (ha : 0 < a) :
    make_shared_offset a s = some (a * max 1 ((s + a - 1) / a)) :=
  offset_loop_closed a s ha (s + 1) (by omega)

theorem alignUp_dvd (n al : Nat) (hal : 0 < al) : al ∣ alignUp n al := by
  unfold alignUp
  have hdm := Nat.div_add_mod n al
  have hlt := Nat.mod_lt n hal
  by_cases hr : n % al = 0
  · rw [hr, Nat.sub_zero, Nat.mod_self, Nat.add_zero]
    exact Nat.dvd_of_mod_eq_zero hr
  · rw [Nat.mod_eq_of_lt (by omega)]
    refine ⟨n / al + 1, ?_⟩
    rw [Nat.mul_add]
    omega

theorem make_shared_layout (s : State) (alignT sizeT sizeCounter alignCounter offset : Nat)
    (indet : Ptr) (hoff : make_shared_offset alignT sizeCounter = some offset) :
    ∃ s1, make_shared s alignT sizeT sizeCounter alignCounter indet
        = .ok (s1, s.handles.length) ∧
      getHandle s1 s.handles.length = .ok
        ⟨some (operator_new s (offset + sizeT) (max alignT alignCounter)).2,
          some ((operator_new s (offset + sizeT) (max alignT alignCounter)).2 + offset)⟩ ∧
      s1.brk = (operator_new s (offset + sizeT) (max alignT alignCounter)).1.brk :=
  ⟨_, make_shared_spec s alignT sizeT sizeCounter alignCounter offset indet hoff,
    getHandle_last _ _ _ rfl, rfl⟩

theorem fused_offset_props (a s : Nat) (ha : 0 < a) :
    ∃ offset, offset = a * max 1 ((s + a - 1) / a) ∧
      make_shared_offset a s = some offset ∧
      0 < offset ∧ a ∣ offset ∧ s ≤ offset ∧
      (∀ k, 0 < k → s ≤ a * k → offset ≤ a * k) ∧
      (a ≤ s → offset < s + a) := by
  obtain ⟨r, hr⟩ : ∃ r, r = a * max 1 ((s + a - 1) / a) := ⟨_, rfl⟩
  have hoff : make_shared_offset a s = some r := by rw [hr]; exact make_shared_offset_closed a s ha
  obtain ⟨h1, ⟨j, hj⟩, h3⟩ := offset_loop_result a s (s + 1) a r hoff
  have hmul : r = a * (j + 1) := by rw [hj, Nat.mul_add]; omega
  refine ⟨r, hr, hoff, ?_, ⟨j + 1, hmul⟩, h1, ?_, ?_⟩
  · have : 0 < a * (j + 1) := Nat.mul_pos ha (by omega)
    omega
  · intro k hk hsk
    have hak : a ≤ a * k := Nat.le_mul_of_pos_right a hk
    by_cases hj0 : j = 0
    · subst hj0
      omega
    · have haj : a ≤ a * j := Nat.le_mul_of_pos_right a (by omega)
      by_cases hkj : k ≤ j
      · have : a * k ≤ a * j := Nat.mul_le_mul_left a hkj
        omega
      · have : a * (j + 1) ≤ a * k := Nat.mul_le_mul_left a (by omega)
        omega
  · intro has
    omega

/-- C20 (fused layout offset, closed form): for every payload alignment
`a ≥ 1` and control-block size `s` the offset loop of `make_shared` and
`make_shared_for_overwrite` terminates (with the fuel `s + 1` used by
`make_shared_offset` and with any larger or equal fuel) and yields
`offset = a * max 1 ⌈s / a⌉`, the ceiling written `(s + a - 1) / a`: the offset
is positive, a multiple of `a`, at least `s`, the smallest positive multiple of
`a` that is at least `s`, and below `s + a` when `a ≤ s`; the layout asks for
`offset + sizeof(T)` bytes at alignment `max a (alignof(__counter))`, and that
is the request `make_shared` sends to `operator new`, with the control block at
the start of the allocation and the payload `offset` bytes further. -/
theorem fused_offset_closed_form (a s : Nat) (ha : 1 ≤ a) :
    ∃ offset, offset = a * max 1 ((s + a - 1) / a) ∧
      make_shared_offset a s = some offset ∧
      (∀ fuel, s < fuel → offset_loop a s fuel a = some offset) ∧
      0 < offset ∧ a ∣ offset ∧ s ≤ offset ∧
      (∀ k, 0 < k → s ≤ a * k → offset ≤ a * k) ∧
      (a ≤ s → offset < s + a) ∧
      (∀ t c, fused_layout a t s c = some (offset, max a c, offset + t)) ∧
      ∀ (st : State) (t c : Nat) (indet : Ptr),
        ∃ s1 i, make_shared st a t s c indet = .ok (s1, i) ∧
          getHandle s1 i = .ok
            ⟨some (operator_new st (offset + t) (max a c)).2,
              some ((operator_new st (offset + t) (max a c)).2 + offset)⟩ ∧
          s1.brk = (operator_new st (offset + t) (max a c)).1.brk := by
  obtain ⟨r, hr, hoff, hpos, hdvd, hge, hmin, hlt⟩ := fused_offset_props a s ha
  refine ⟨r, hr, hoff, ?_, hpos, hdvd, hge, hmin, hlt, ?_, ?_⟩
  · intro fuel hf
    rw [hr]
    exact offset_loop_closed a s ha fuel hf
  · intro t c
    simp [fused_layout, hoff]
  · intro st t c indet
    obtain ⟨s1, hm, hh, hb⟩ := make_shared_layout st a t s c r indet hoff
    exact ⟨s1, _, hm, hh, hb⟩

/-- C13 (fused layout, alignment and separation): for alignments `a` and `c`
that are powers of two, every control-block size `s`, payload size `t` and
allocation start `m` that is a multiple of `max a c`, with the offset computed
by the layout: the payload address `m + offset` is a multiple of `a`; no byte
lies both in the control-block range `[m, m + s)` and in the payload range
`[m + offset, m + offset + t)`; both ranges lie inside the allocation
`[m, m + size)` with `size = offset + t`.  In every state `make_shared` indeed
obtains a start address that is a multiple of `max a c` and places the payload
`offset` bytes after it. -/
theorem fused_layout_aligned_separated (a c s t m i j : Nat) (ha : a = 2 ^ i)
    (hc : c = 2 ^ j) (hm : max a c ∣ m) :
    ∃ offset, fused_layout a t s c = some (offset, max a c, offset + t) ∧
      a ∣ (m + offset) ∧
      (∀ x, m ≤ x → x < m + s → ¬ (m + offset ≤ x ∧ x < m + offset + t)) ∧
      (m ≤ m ∧ m + s ≤ m + (offset + t)) ∧
      (m ≤ m + offset ∧ m + offset + t ≤ m + (offset + t)) ∧
      ∀ (st : State) (indet : Ptr),
        ∃ s1 i mem, make_shared st a t s c indet = .ok (s1, i) ∧
          max a c ∣ mem ∧ getHandle s1 i = .ok ⟨some mem, some (mem + offset)⟩ := by
  have hapos : 0 < a := by rw [ha]; exact Nat.two_pow_pos i
  have hdvd : a ∣ max a c := by
    rcases Nat.le_total i j with hij | hij
    · have hac : a ∣ c := by rw [ha, hc]; exact pow_dvd_pow 2 hij
      have hle : a ≤ c := by rw [ha, hc]; exact Nat.pow_le_pow_right (by decide) hij
      rw [Nat.max_eq_right hle]; exact hac
    · have hle : c ≤ a := by rw [ha, hc]; exact Nat.pow_le_pow_right (by decide) hij
      rw [Nat.max_eq_left hle]
  obtain ⟨offset, -, hoff, -, hao, hso, -, -⟩ := fused_offset_props a s hapos
  refine ⟨offset, by simp [fused_layout, hoff], Nat.dvd_add (Nat.dvd_trans hdvd hm) hao, ?_, ⟨Nat.le_refl _, by omega⟩,
    ⟨by omega, by omega⟩, ?_⟩
  · intro x _ hx2 hx3
    omega
  · intro st indet
    obtain ⟨s1, hms, hh, -⟩ := make_shared_layout st a t s c offset indet hoff
    refine ⟨s1, _, _, hms, ?_, hh⟩
    exact alignUp_dvd _ _ (Nat.lt_of_lt_of_le hapos (Nat.le_max_left a c))

theorem ctor_ptr_cb_spec (s : State) (p : Nat) (cb : Ptr) (e : enable_shared_from_this)
    (hp : s.objects p = some e) :
    ctor_ptr_cb s (some p) cb = .ok
      ({ s with
          handles := s.handles ++ [some ⟨cb, some p⟩],
          objects := upd s.objects p (some ⟨cb⟩),
          wired := s.wired ++ [(p, cb)] }, s.handles.length) := by
  simp [ctor_ptr_cb, newHandle, setUp_shared_from_this, setUp_shared_from_thisControl, hp]

theorem ctor_alias_copy_spec (s : State) (j cb : Nat) (q ptr : Ptr) (b : ControlBlock)
    (hj : getHandle s j = .ok ⟨some cb, q⟩) (hb : s.blocks cb = some b) :
    ctor_alias_copy s j ptr = .ok
      ({ s with
          blocks := upd s.blocks cb (some { b with mCount := b.mCount + 1 }),
          handles := s.handles ++ [some ⟨some cb, ptr⟩] }, s.handles.length) := by
  simp [ctor_alias_copy, hj, newHandle, incref, hb]

theorem ctor_alias_copy_ok (s : State) (j cb : Nat) (q ptr : Ptr) (b : ControlBlock)
    (hj : getHandle s j = .ok ⟨some cb, q⟩) (hb : s.blocks cb = some b) :
    ∃ s1, ctor_alias_copy s j ptr = .ok (s1, s.handles.length) ∧
      s1.blocks = upd s.blocks cb (some { b with mCount := b.mCount + 1 }) ∧
      s1.handles = s.handles ++ [some ⟨some cb, ptr⟩] ∧
      s1.objects = s.objects ∧ s1.brk = s.brk ∧ s1.deleted = s.deleted ∧ s1.freed = s.freed :=
  ⟨_, ctor_alias_copy_spec s j cb q ptr b hj hb, rfl, rfl, rfl, rfl, rfl, rfl⟩

theorem pointer_cast_ok (cast : Ptr → Ptr) (s : State) (j cb : Nat) (q : Ptr) (b : ControlBlock)
    (hj : getHandle s j = .ok ⟨some cb, q⟩) (hb : s.blocks cb = some b) :
    ∃ s1, pointer_cast cast s j = .ok (s1, s.handles.length) ∧
      s1.blocks = upd s.blocks cb (some { b with mCount := b.mCount + 1 }) ∧
      s1.handles = s.handles ++ [some ⟨some cb, cast q⟩] ∧
      s1.objects = s.objects ∧ s1.brk = s.brk ∧ s1.deleted = s.deleted ∧ s1.freed = s.freed := by
  obtain ⟨s1, h1, rest⟩ := ctor_alias_copy_ok s j cb q (cast q) b hj hb
  refine ⟨s1, ?_, rest⟩
  simp [pointer_cast, get, hj, h1]

/-- What a pointer cast leaves behind, read off from what it does to the block
table and to the handle table. -/
theorem cast_shares_ownership {s s1 : State} {H cb : Nat} {q r : Ptr} {b : ControlBlock}
    (hH : getHandle s H = .ok ⟨some cb, q⟩)
    (hb1 : s1.blocks = upd s.blocks cb (some { b with mCount := b.mCount + 1 }))
    (hh1 : s1.handles = s.handles ++ [some ⟨some cb, r⟩]) :
    getHandle s1 s.handles.length = .ok ⟨some cb, r⟩ ∧
      owner_equal s1 s.handles.length H = .ok true ∧
      get s1 s.handles.length = .ok r ∧
      getHandle s1 H = .ok ⟨some cb, q⟩ ∧
      getCount s1 (some cb) = .ok (b.mCount + 1) ∧
      (∀ x, x ≠ cb → s1.blocks x = s.blocks x) := by
  have hR : getHandle s1 s.handles.length = .ok ⟨some cb, r⟩ := getHandle_last s1 _ _ hh1
  have hH1 : getHandle s1 H = .ok ⟨some cb, q⟩ := getHandle_append _ hH hh1
  refine ⟨hR, ?_, ?_, hH1, ?_, ?_⟩
  · simp [owner_equal, hR, hH1]
  · simp [get, hR]
  · simp [getCount, hb1, upd]
  · intro x hx
    rw [hb1, upd_other _ _ _ _ hx]

/-- The three casts share ownership when there is a block to share: for every
handle `H` that holds a live control block `cb` with count `c`, each of
`static_pointer_cast`, `const_pointer_cast` and `reinterpret_pointer_cast`
succeeds and returns a handle `R` with the control block of `H`
(`R.owner_equal(H)`), whose payload pointer is the cast value of `H.get()`
(the same address for the const and the reinterpret cast); `H` is unchanged,
the count of `cb` is `c + 1` and no other block changes.  An empty handle is
not covered, see `casts_of_empty_handle_fault`. -/
theorem casts_share_ownership (s : State) (H cb : Nat) (q : Ptr) (b : ControlBlock)
    (cast : Ptr → Ptr)
    (hH : getHandle s H = .ok ⟨some cb, q⟩) (hb : s.blocks cb = some b) :
    (∃ s1 R, static_pointer_cast cast s H = .ok (s1, R) ∧
      getHandle s1 R = .ok ⟨some cb, cast q⟩ ∧ owner_equal s1 R H = .ok true ∧
      get s1 R = .ok (cast q) ∧ getHandle s1 H = .ok ⟨some cb, q⟩ ∧
      getCount s1 (some cb) = .ok (b.mCount + 1) ∧ (∀ x, x ≠ cb → s1.blocks x = s.blocks x)) ∧
    (∃ s1 R, const_pointer_cast s H = .ok (s1, R) ∧
      getHandle s1 R = .ok ⟨some cb, q⟩ ∧ owner_equal s1 R H = .ok true ∧
      get s1 R = .ok q ∧ getHandle s1 H = .ok ⟨some cb, q⟩ ∧
      getCount s1 (some cb) = .ok (b.mCount + 1) ∧ (∀ x, x ≠ cb → s1.blocks x = s.blocks x)) ∧
    (∃ s1 R, reinterpret_pointer_cast s H = .ok (s1, R) ∧
      getHandle s1 R = .ok ⟨some cb, q⟩ ∧ owner_equal s1 R H = .ok true ∧
      get s1 R = .ok q ∧ getHandle s1 H = .ok ⟨some cb, q⟩ ∧
      getCount s1 (some cb) = .ok (b.mCount + 1) ∧ (∀ x, x ≠ cb → s1.blocks x = s.blocks x)) := by
  obtain ⟨s1, h1, hb1, hh1, -⟩ := pointer_cast_ok cast s H cb q b hH hb
  obtain ⟨s2, h2, hb2, hh2, -⟩ := pointer_cast_ok id s H cb q b hH hb
  exact ⟨⟨s1, _, h1, cast_shares_ownership hH hb1 hh1⟩,
    ⟨s2, _, h2, cast_shares_ownership hH hb2 hh2⟩,
    ⟨s2, _, h2, cast_shares_ownership hH hb2 hh2⟩⟩

/-- C17 (dynamic cast): for every live handle `H`, empty or not: if the
dynamic type check on `H.get()` fails (`cast` returns null),
`dynamic_pointer_cast` returns an empty handle, no control block changes and
`H.use_count()` is what it was; if `H` holds a live control block with count
`c` and the check succeeds with `p`, the result holds that block and `p`
(`owner_equal` with `H`), `H` is unchanged, the count is `c + 1` and no other
block changes. -/
theorem dynamic_cast_failure_and_success (s : State) (H : Nat) (h : shared_ptr)
    (cast : Ptr → Ptr) (hH : getHandle s H = .ok h) :
    (cast h.m_ptr = none →
      ∃ s1 D, dynamic_pointer_cast cast s H = .ok (s1, D) ∧
        getHandle s1 D = .ok ⟨none, none⟩ ∧ s1.blocks = s.blocks ∧
        getHandle s1 H = .ok h ∧ use_count s1 H = use_count s H) ∧
    (∀ cb b p, h.m_cb = some cb → s.blocks cb = some b → cast h.m_ptr = some p →
      ∃ s1 D, dynamic_pointer_cast cast s H = .ok (s1, D) ∧
        getHandle s1 D = .ok ⟨some cb, some p⟩ ∧ owner_equal s1 D H = .ok true ∧
        getHandle s1 H = .ok h ∧
        getCount s1 (some cb) = .ok (b.mCount + 1) ∧
        (∀ x, x ≠ cb → s1.blocks x = s.blocks x)) := by
  constructor
  · intro hc
    have hh1 : (ctor_nullptr s).1.handles = s.handles ++ [some ⟨none, none⟩] := rfl
    have hH1 : getHandle (ctor_nullptr s).1 H = .ok h := getHandle_append _ hH hh1
    refine ⟨(ctor_nullptr s).1, s.handles.length, ?_, getHandle_last _ _ _ hh1, rfl, hH1, ?_⟩
    · simp [dynamic_pointer_cast, get, hH, hc]
      rfl
    · simp only [use_count, hH, hH1]
      rfl
  · intro cb b p hcb hb hc
    obtain ⟨cb0, q⟩ := h
    simp only at hcb hc
    subst hcb
    obtain ⟨s1, h1, hb1, hh1, -⟩ := ctor_alias_copy_ok s H cb q (some p) b hH hb
    obtain ⟨e1, e2, -, e4, e5, e6⟩ := cast_shares_ownership hH hb1 hh1
    refine ⟨s1, _, ?_, e1, e2, e4, e5, e6⟩
    simp [dynamic_pointer_cast, get, hH, hc, h1]

theorem setUp_ok_ptr {s s1 : State} {ptr cb : Ptr}
    (h : setUp_shared_from_this s ptr cb = .ok s1) :
    ∃ p, ptr = some p ∧ s1.handles = s.handles ∧ s1.wired = s.wired ++ [(p, cb)] ∧
      s1.objects p = some ⟨cb⟩ := by
  unfold setUp_shared_from_this setUp_shared_from_thisControl at h
  cases ptr with
  | none => cases h
  | some p =>
    cases ho : s.objects p with
    | none => simp [ho] at h
    | some e =>
      simp only [ho] at h
      cases h
      exact ⟨p, rfl, rfl, rfl, upd_same _ _ _⟩

theorem decref_wired {s s1 : State} {cb : Ptr} (h : decref s cb = .ok s1) :
    s1.wired = s.wired := by
  unfold decref at h
  cases cb with
  | none => cases h
  | some a =>
    cases hb : s.blocks a with
    | none => simp [hb] at h
    | some b =>
      simp only [hb] at h
      by_cases hc : b.mCount = 1
      · simp only [hc, if_true] at h
        cases hd : runDeleter s b.mDeleter b.m_ptr with
        | error e => simp [hd] at h
        | ok s0 =>
          simp only [hd] at h
          cases h
          unfold runDeleter at hd
          split at hd
          · cases hd; rfl
          · cases hd; rfl
          · cases hd
          · split at hd
            · cases hd
            · cases hd; rfl
      · simp only [hc, if_false] at h
        cases h
        rfl

theorem reset_ptr_deleter_result {s s1 : State} {this : Nat} {ptr : Ptr} {d : Deleter}
    (h : reset_ptr_deleter s this ptr d = .ok s1) :
    ∃ a p, ptr = some p ∧ getHandle s1 this = .ok ⟨some a, some p⟩ ∧
      s1.wired = s.wired ++ [(p, some a)] := by
  unfold reset_ptr_deleter at h
  cases ho : getHandle s this with
  | error e => simp [ho] at h
  | ok o =>
    simp only [ho] at h
    split at h
    · cases h
    · next s0 hs0 =>
      simp only [operator_new, setHandle] at h
      obtain ⟨a, b, -, -, e2, -, -⟩ := decref_inv hs0
      have hw := decref_wired hs0
      obtain ⟨p, hp, hh, hwd, -⟩ := setUp_ok_ptr h
      subst hp
      have hlt := lt_of_getHandle ho
      refine ⟨alignUp s0.brk 1, p, rfl, ?_, ?_⟩
      · apply getHandle_of_get?
        rw [hh]
        show (s0.handles.set this _)[this]? = _
        rw [List.getElem?_set_self (by rw [e2]; exact hlt)]
      · rw [hwd]
        show s0.wired ++ _ = _
        rw [hw]

theorem reset_ptr_result {s s1 : State} {this : Nat} {ptr : Ptr}
    (h : reset_ptr s this ptr = .ok s1) :
    ∃ a p, ptr = some p ∧ getHandle s1 this = .ok ⟨some a, some p⟩ ∧
      s1.wired = s.wired ++ [(p, some a)] :=
  reset_ptr_deleter_result (d := .default_delete) h

/-- C11 as stated fails: `p1` owns the object at 0 through the block at 1, whose
count is 1; constructing `shared_ptr(p, cb)` from that pointer and that block
succeeds and leaves the count at 1, not at 2. -/
theorem ctor_ptr_cb_increment_counterexample :
    demo_p1.objects 0 = some ⟨some 1⟩ ∧ getCount demo_p1 (some 1) = .ok 1 ∧
    ∃ s1 i, ctor_ptr_cb demo_p1 (some 0) (some 1) = .ok (s1, i) ∧
      getHandle s1 i = .ok ⟨some 1, some 0⟩ ∧
      getCount s1 (some 1) = .ok 1 ∧ getCount s1 (some 1) ≠ .ok (1 + 1) :=
  ⟨rfl, rfl, stateOf (ctor_ptr_cb demo_p1 (some 0) (some 1)), 1, rfl, rfl, rfl,
    fun h => by cases h⟩

/-- C11 as amended: for every pointer `p` to a live object and every control
block pointer `cb`, constructing `shared_ptr(p, cb)` succeeds, allocates
nothing (the allocation break is unchanged), stores `cb` and `p` in the new
handle, changes no control block, so that the count of `cb` stays what it
was, and stores `cb` into the back pointer of the object. -/
theorem ctor_ptr_cb_adopts_without_increment (s : State) (p : Nat) (cb : Ptr)
    (e : enable_shared_from_this) (hp : s.objects p = some e) :
    ∃ s1 i, ctor_ptr_cb s (some p) cb = .ok (s1, i) ∧
      getHandle s1 i = .ok ⟨cb, some p⟩ ∧
      s1.blocks = s.blocks ∧ s1.brk = s.brk ∧ getCount s1 cb = getCount s cb ∧
      s1.objects p = some ⟨cb⟩ := by
  refine ⟨_, _, ctor_ptr_cb_spec s p cb e hp, getHandle_last _ _ _ rfl, rfl, rfl, ?_,
    upd_same _ _ _⟩
  cases cb <;> rfl

/-- Witness for C11 as amended: the object and the block of `demo_p1`. -/
theorem ctor_ptr_cb_adopts_without_increment_witness :
    demo_p1.objects 0 = some ⟨some 1⟩ ∧
    ∃ s1 i, ctor_ptr_cb demo_p1 (some 0) (some 1) = .ok (s1, i) ∧
      getHandle s1 i = .ok ⟨some 1, some 0⟩ ∧
      s1.blocks = demo_p1.blocks ∧ s1.brk = demo_p1.brk ∧
      getCount s1 (some 1) = getCount demo_p1 (some 1) ∧
      s1.objects 0 = some ⟨some 1⟩ :=
  ⟨rfl, ctor_ptr_cb_adopts_without_increment demo_p1 0 (some 1) ⟨some 1⟩ rfl⟩

/-- C12 as stated fails: during `make_shared` (`demo_p2`, built from `demo_p1`)
the wiring operation stores twice into the back pointer of the new object at
address 48, once from `make_shared` itself and once from the constructor
`shared_ptr(Y*, ControlBlock*)` that `make_shared_fused` calls. -/
theorem wired_twice_by_make_shared_counterexample :
    demo_p1.objects 48 = none ∧
    demo_p2.wired = demo_p1.wired ++ [(48, some 8), (48, some 8)] ∧
    ¬ ((demo_p2.wired.filter (fun w => w.1 = 48)).length ≤ 1) :=
  ⟨rfl, rfl, by decide⟩

/-- C12 as amended: the wiring operation stores into the back pointer of an
object once in each raw-pointer construction and each `reset(ptr)` over it,
twice in `make_shared`, and once more in every `shared_from_this`; the two
stores of `make_shared` write the same control block pointer, and on an object
wired to a live block every `shared_from_this` writes the pointer already
stored, so that the value of the back pointer is not changed by it. -/
theorem wiring_stores (s : State) :
    (∀ p e, s.objects p = some e →
      ∃ s1 i cb, ctor_ptr s (some p) = .ok (s1, i) ∧
        s1.wired = s.wired ++ [(p, some cb)] ∧ s1.objects p = some ⟨some cb⟩) ∧
    (∀ (this : Nat) (ptr : Ptr) (s1 : State), reset_ptr s this ptr = .ok s1 →
      ∃ cb p, ptr = some p ∧ s1.wired = s.wired ++ [(p, some cb)]) ∧
    (∀ (alignT sizeT sizeCounter alignCounter : Nat) (indet : Ptr), 0 < alignT →
      ∃ s1 i cb p, make_shared s alignT sizeT sizeCounter alignCounter indet = .ok (s1, i) ∧
        s1.wired = s.wired ++ [(p, some cb), (p, some cb)] ∧
        s1.objects p = some ⟨some cb⟩) ∧
    (∀ obj cb blk, s.objects obj = some ⟨some cb⟩ → s.blocks cb = some blk →
      ∃ s1 i, shared_from_this s obj = .ok (s1, i) ∧
        s1.wired = s.wired ++ [(obj, some cb)] ∧ s1.objects obj = some ⟨some cb⟩) := by
  refine ⟨?_, ?_, ?_, ?_⟩
  · intro p e hp
    exact ⟨_, _, _, ctor_ptr_spec s p e hp, rfl, upd_same _ _ _⟩
  · intro this ptr s1 h
    obtain ⟨a, p, hp, -, hw⟩ := reset_ptr_result h
    exact ⟨a, p, hp, hw⟩
  · intro alignT sizeT sizeCounter alignCounter indet ha
    obtain ⟨offset, hoff⟩ := make_shared_offset_some alignT sizeCounter ha
    exact ⟨_, _, _, _, make_shared_spec s alignT sizeT sizeCounter alignCounter offset indet hoff,
      rfl, upd_same _ _ _⟩
  · intro obj cb blk hobj hblk
    exact ⟨_, _, shared_from_this_spec s obj cb blk hobj hblk, rfl, upd_same _ _ _⟩

/-- Witness for C12 as amended: `shared_from_this` on the object owned by `p1`,
and `make_shared` for a payload of alignment 8. -/
theorem wiring_stores_witness :
    (demo_p1.objects 0 = some ⟨some 1⟩ ∧
      demo_p1.blocks 1 = some ⟨1, some 0, .default_delete, none⟩ ∧
      ∃ s1 i, shared_from_this demo_p1 0 = .ok (s1, i) ∧
        s1.wired = demo_p1.wired ++ [(0, some 1)] ∧ s1.objects 0 = some ⟨some 1⟩) ∧
    (0 < 8 ∧ ∃ s1 i cb p, make_shared demo_p1 8 8 40 8 none = .ok (s1, i) ∧
        s1.wired = demo_p1.wired ++ [(p, some cb), (p, some cb)] ∧
        s1.objects p = some ⟨some cb⟩) :=
  ⟨⟨rfl, rfl, (wiring_stores demo_p1).2.2.2 0 1 ⟨1, some 0, .default_delete, none⟩ rfl rfl⟩,
    ⟨by decide, (wiring_stores demo_p1).2.2.1 8 8 40 8 none (by decide)⟩⟩

/-- C16 (`reset()` on any handle), the code at the failing input: slot 1 of
`demo_empty` is an empty handle; `reset()` executes `m_cb->decref()` through
the null `m_cb`. -/
theorem reset_of_empty_handle_faults :
    getHandle demo_empty 1 = .ok ⟨none, none⟩ ∧
    reset demo_empty 1 = .error .null_dereference :=
  ⟨rfl, rfl⟩

/-- Witness for C13: payload alignment 32, control block of size 40 and
alignment 8, payload size 32, allocation at address 64. -/
theorem fused_layout_aligned_separated_witness :
    32 = 2 ^ 5 ∧ 8 = 2 ^ 3 ∧ max 32 8 ∣ 64 ∧
    ∃ offset, fused_layout 32 32 40 8 = some (offset, max 32 8, offset + 32) ∧
      32 ∣ (64 + offset) ∧
      (∀ x, 64 ≤ x → x < 64 + 40 → ¬ (64 + offset ≤ x ∧ x < 64 + offset + 32)) ∧
      (64 ≤ 64 ∧ 64 + 40 ≤ 64 + (offset + 32)) ∧
      (64 ≤ 64 + offset ∧ 64 + offset + 32 ≤ 64 + (offset + 32)) ∧
      ∀ (st : State) (indet : Ptr),
        ∃ s1 i mem, make_shared st 32 32 40 8 indet = .ok (s1, i) ∧
          max 32 8 ∣ mem ∧ getHandle s1 i = .ok ⟨some mem, some (mem + offset)⟩ :=
  ⟨by decide, by decide, by decide,
    fused_layout_aligned_separated 32 8 40 32 64 5 3 (by decide) (by decide) (by decide)⟩

/-- Witness for C20: payload alignment 8 and a control block of 40 bytes, as
in `demo_p2`; the offset is 40. -/
theorem fused_offset_closed_form_witness :
    1 ≤ 8 ∧ make_shared_offset 8 40 = some 40 ∧
    ∃ offset, offset = 8 * max 1 ((40 + 8 - 1) / 8) ∧
      make_shared_offset 8 40 = some offset ∧
      (∀ fuel, 40 < fuel → offset_loop 8 40 fuel 8 = some offset) ∧
      0 < offset ∧ 8 ∣ offset ∧ 40 ≤ offset ∧
      (∀ k, 0 < k → 40 ≤ 8 * k → offset ≤ 8 * k) ∧
      (8 ≤ 40 → offset < 40 + 8) ∧
      (∀ t c, fused_layout 8 t 40 c = some (offset, max 8 c, offset + t)) ∧
      ∀ (st : State) (t c : Nat) (indet : Ptr),
        ∃ s1 i, make_shared st 8 t 40 c indet = .ok (s1, i) ∧
          getHandle s1 i = .ok
            ⟨some (operator_new st (offset + t) (max 8 c)).2,
              some ((operator_new st (offset + t) (max 8 c)).2 + offset)⟩ ∧
          s1.brk = (operator_new st (offset + t) (max 8 c)).1.brk :=
  ⟨by decide, by decide, fused_offset_closed_form 8 40 (by decide)⟩

/-- Witness for C17: on `p1` of `demo_p1` a failing check and a succeeding
one, and a failing check on the empty handle of `demo_empty`. -/
theorem dynamic_cast_failure_and_success_witness :
    (getHandle demo_p1 0 = .ok ⟨some 1, some 0⟩ ∧
      ∃ s1 D, dynamic_pointer_cast (fun _ => none) demo_p1 0 = .ok (s1, D) ∧
        getHandle s1 D = .ok ⟨none, none⟩ ∧ s1.blocks = demo_p1.blocks ∧
        getHandle s1 0 = .ok ⟨some 1, some 0⟩ ∧ use_count s1 0 = use_count demo_p1 0) ∧
    (demo_p1.blocks 1 = some ⟨1, some 0, .default_delete, none⟩ ∧
      ∃ s1 D, dynamic_pointer_cast id demo_p1 0 = .ok (s1, D) ∧
        getHandle s1 D = .ok ⟨some 1, some 0⟩ ∧ owner_equal s1 D 0 = .ok true ∧
        getHandle s1 0 = .ok ⟨some 1, some 0⟩ ∧
        getCount s1 (some 1) = .ok (1 + 1) ∧
        (∀ x, x ≠ 1 → s1.blocks x = demo_p1.blocks x)) ∧
    (getHandle demo_empty 1 = .ok ⟨none, none⟩ ∧
      ∃ s1 D, dynamic_pointer_cast id demo_empty 1 = .ok (s1, D) ∧
        getHandle s1 D = .ok ⟨none, none⟩ ∧ s1.blocks = demo_empty.blocks ∧
        getHandle s1 1 = .ok ⟨none, none⟩ ∧ use_count s1 1 = use_count demo_empty 1) :=
  ⟨⟨rfl, (dynamic_cast_failure_and_success demo_p1 0 ⟨some 1, some 0⟩ (fun _ => none) rfl).1 rfl⟩,
    ⟨rfl, (dynamic_cast_failure_and_success demo_p1 0 ⟨some 1, some 0⟩ id rfl).2 1
      ⟨1, some 0, .default_delete, none⟩ 0 rfl rfl rfl⟩,
    ⟨rfl, (dynamic_cast_failure_and_success demo_empty 1 ⟨none, none⟩ id rfl).1 rfl⟩⟩

/-- Example of `casts_share_ownership`: the three casts applied to `p1` of
`demo_p1`. -/
theorem casts_share_ownership_example :
    getHandle demo_p1 0 = .ok ⟨some 1, some 0⟩ ∧
    demo_p1.blocks 1 = some ⟨1, some 0, .default_delete, none⟩ ∧
    (∃ s1 R, static_pointer_cast id demo_p1 0 = .ok (s1, R) ∧
      getHandle s1 R = .ok ⟨some 1, some 0⟩ ∧ owner_equal s1 R 0 = .ok true ∧
      get s1 R = .ok (some 0) ∧ getHandle s1 0 = .ok ⟨some 1, some 0⟩ ∧
      getCount s1 (some 1) = .ok (1 + 1) ∧ (∀ x, x ≠ 1 → s1.blocks x = demo_p1.blocks x)) ∧
    (∃ s1 R, const_pointer_cast demo_p1 0 = .ok (s1, R) ∧
      getHandle s1 R = .ok ⟨some 1, some 0⟩ ∧ owner_equal s1 R 0 = .ok true ∧
      get s1 R = .ok (some 0) ∧ getHandle s1 0 = .ok ⟨some 1, some 0⟩ ∧
      getCount s1 (some 1) = .ok (1 + 1) ∧ (∀ x, x ≠ 1 → s1.blocks x = demo_p1.blocks x)) ∧
    (∃ s1 R, reinterpret_pointer_cast demo_p1 0 = .ok (s1, R) ∧
      getHandle s1 R = .ok ⟨some 1, some 0⟩ ∧ owner_equal s1 R 0 = .ok true ∧
      get s1 R = .ok (some 0) ∧ getHandle s1 0 = .ok ⟨some 1, some 0⟩ ∧
      getCount s1 (some 1) = .ok (1 + 1) ∧ (∀ x, x ≠ 1 → s1.blocks x = demo_p1.blocks x)) :=
  ⟨rfl, rfl, casts_share_ownership demo_p1 0 1 (some 0) ⟨1, some 0, .default_delete, none⟩ id
    rfl rfl⟩

/-! ## Copies between handles of one type -/

theorem demo_copy_implicit_reachable : Reachable demo_copy_implicit :=
  .step demo_p1_reachable_counting.reachable
    (@Step.ctor_copy_implicit demo_p1 demo_copy_implicit 0 1 rfl)

/-- A copy from an empty handle of the same type completes, yields an empty
handle and changes no control block. -/
theorem ctor_copy_implicit_of_empty (s : State) (other : Nat)
    (ho : getHandle s other = .ok ⟨none, none⟩) :
    ∃ s1 D, ctor_copy_implicit s other = .ok (s1, D) ∧
      getHandle s1 D = .ok ⟨none, none⟩ ∧ use_count s1 D = .ok 0 ∧ s1.blocks = s.blocks := by
  have hD : getHandle (newHandle s ⟨none, none⟩).1 s.handles.length = .ok ⟨none, none⟩ :=
    getHandle_last _ _ _ rfl
  refine ⟨(newHandle s ⟨none, none⟩).1, s.handles.length, ?_, hD, ?_, rfl⟩
  · simp [ctor_copy_implicit, ho, newHandle]
  · simp [use_count, hD]

/-- C1 (count equals owners), the code at the failing input: after `new A`,
`shared_ptr<A> p1(ptr)` and the copy `shared_ptr<A> q(p1)`, a state the listed
operations reach, the block at address 1 is live with count 1 while two live
handles point to it. -/
theorem count_differs_from_owners_after_copy :
    Reachable demo_copy_implicit ∧
    demo_copy_implicit.blocks 1 = some ⟨1, some 0, .default_delete, none⟩ ∧
    demo_copy_implicit.handles = [some ⟨some 1, some 0⟩, some ⟨some 1, some 0⟩] ∧
    ownerCount demo_copy_implicit.handles 1 = 2 :=
  ⟨demo_copy_implicit_reachable, rfl, rfl, rfl⟩

/-- C2 (count accuracy), the code at the failing input `N = 2`: after
`shared_ptr<A> p1(ptr)` and the copy `shared_ptr<A> q(p1)` both handles are
live on the same object and `use_count()` returns 1 on each of them. -/
theorem use_count_after_same_type_copy :
    ctor_copy_implicit demo_p1 0 = .ok (demo_copy_implicit, 1) ∧
    getHandle demo_copy_implicit 0 = .ok ⟨some 1, some 0⟩ ∧
    getHandle demo_copy_implicit 1 = .ok ⟨some 1, some 0⟩ ∧
    use_count demo_copy_implicit 0 = .ok 1 ∧ use_count demo_copy_implicit 1 = .ok 1 :=
  ⟨rfl, rfl, rfl, rfl, rfl⟩

/-- C3 (exactly-once destruction), the code at the failing input `N = 2`: of
the two handles `p1` and its copy `q`, destroying `p1` first already runs the
deleter on the payload and releases the control block while `q` still points
to both; destroying `q` then decrements the released block. -/
theorem same_type_copy_destroyed_early :
    demo_copy_implicit.deleted = [] ∧ demo_copy_implicit.freed = [] ∧
    ∃ s1, dtor demo_copy_implicit 0 = .ok s1 ∧
      s1.deleted = [some 0] ∧ s1.freed = [1] ∧
      s1.objects 0 = none ∧ s1.blocks 1 = none ∧
      getHandle s1 1 = .ok ⟨some 1, some 0⟩ ∧
      dtor s1 1 = .error .invalid_pointer :=
  ⟨rfl, rfl, stateOf ((dtor demo_copy_implicit 0).map (fun s => (s, ()))), rfl, rfl, rfl, rfl,
    rfl, rfl, rfl⟩

/-- C6 (copy assignment), the code at the failing input: `a` (slot 0) and `b`
(slot 1) own different objects through the blocks at 2 and 3, each with count
1.  `a = b` between handles of one type is the member-wise assignment: `a`
takes the members of `b`, the count of the block `a` owned stays 1 although no
handle points to it any more, nothing is destroyed, and the count of the block
of `b` stays 1 with two handles on it.  The template, which a source of
another handle type reaches, dereferences null when `a` is empty and otherwise
ends without a `return`. -/
theorem same_type_copy_assignment_keeps_counts :
    getHandle demo_two 0 = .ok ⟨some 2, some 0⟩ ∧ getHandle demo_two 1 = .ok ⟨some 3, some 1⟩ ∧
    getCount demo_two (some 2) = .ok 1 ∧ getCount demo_two (some 3) = .ok 1 ∧
    (∃ s1, assign_copy_implicit demo_two 0 1 = .ok s1 ∧
      getHandle s1 0 = .ok ⟨some 3, some 1⟩ ∧ getHandle s1 1 = .ok ⟨some 3, some 1⟩ ∧
      getCount s1 (some 2) = .ok 1 ∧ ownerCount s1.handles 2 = 0 ∧
      s1.deleted = [] ∧ s1.freed = [] ∧
      getCount s1 (some 3) = .ok 1 ∧ ownerCount s1.handles 3 = 2) ∧
    assign_copy demo_empty 1 0 = .error .null_dereference ∧
    assign_copy demo_two 0 1 = .error .missing_return :=
  ⟨rfl, rfl, rfl, rfl,
    ⟨stateOf ((assign_copy_implicit demo_two 0 1).map (fun s => (s, ()))), rfl, rfl, rfl, rfl,
      rfl, rfl, rfl, rfl, rfl⟩,
    rfl, rfl⟩

/-- C15 (copy construction), the code at the failing inputs: the copy
`shared_ptr<A> d(p1)` between handles of one type shares the block of `p1` and
the payload pointer but leaves the count of the block at 1; and the converting
copy constructor applied to an empty handle (slot 1 of `demo_empty`) executes
`m_cb->incref()` through the null `m_cb`. -/
theorem copy_construction_count_and_empty_source :
    getHandle demo_p1 0 = .ok ⟨some 1, some 0⟩ ∧ getCount demo_p1 (some 1) = .ok 1 ∧
    (∃ s1 D, ctor_copy_implicit demo_p1 0 = .ok (s1, D) ∧
      getHandle s1 D = .ok ⟨some 1, some 0⟩ ∧ owner_equal s1 D 0 = .ok true ∧
      getCount s1 (some 1) = .ok 1 ∧ getCount s1 (some 1) ≠ .ok (1 + 1)) ∧
    getHandle demo_empty 1 = .ok ⟨none, none⟩ ∧
    ctor_copy demo_empty 1 = .error .null_dereference :=
  ⟨rfl, rfl, ⟨demo_copy_implicit, 1, rfl, rfl, rfl, rfl, fun h => by cases h⟩, rfl, rfl⟩

/-- C18 (static, const and reinterpret casts), the code at the failing input:
slot 1 of `demo_empty` is an empty handle; each of the three casts builds its
result with the rebinding copy constructor, which executes `m_cb->incref()`
through the null `m_cb`. -/
theorem casts_of_empty_handle_fault :
    getHandle demo_empty 1 = .ok ⟨none, none⟩ ∧
    static_pointer_cast id demo_empty 1 = .error .null_dereference ∧
    const_pointer_cast demo_empty 1 = .error .null_dereference ∧
    reinterpret_pointer_cast demo_empty 1 = .error .null_dereference :=
  ⟨rfl, rfl, rfl, rfl⟩

/-! ## Interleavings of `incref` and `decref` -/

theorem incref_live {s : State} {cb : Nat} {b : ControlBlock} (hb : s.blocks cb = some b) :
    incref s (some cb) = .ok
      { s with blocks := upd s.blocks cb (some { b with mCount := b.mCount + 1 }) } := by
  simp [incref, hb]

theorem runCalls_released {s : State} {cb : Nat} (hb : s.blocks cb = none) :
    ∀ (calls : List Call) (r : State × List Nat),
      runCalls s (some cb) calls = .ok r → calls = [] := by
  intro calls r h
  cases calls with
  | nil => rfl
  | cons c cs =>
    cases c with
    | incref => simp [runCalls, incref, hb] at h
    | decref => simp [runCalls, getCount, hb] at h

/-- The discipline `handlesHeld` is no more than the run being defined: a list
of calls on a live block that runs to its end without a fault satisfies it. -/
theorem handlesHeld_of_runCalls (cb : Nat) :
    ∀ (calls : List Call) (s : State) (b : ControlBlock) (r : State × List Nat),
      s.blocks cb = some b → 1 ≤ b.mCount →
      runCalls s (some cb) calls = .ok r → handlesHeld b.mCount calls := by
  intro calls
  induction calls with
  | nil => intro s b r _ _ _; trivial
  | cons c cs ih =>
    intro s b r hb hc h
    cases c with
    | incref =>
      have hi := incref_live hb
      simp only [runCalls, hi] at h
      exact ⟨hc, ih _ { b with mCount := b.mCount + 1 } r (upd_same s.blocks cb _)
        (by show 1 ≤ b.mCount + 1; omega) h⟩
    | decref =>
      refine ⟨hc, ?_⟩
      have hg : getCount s (some cb) = .ok b.mCount := by simp [getCount, hb]
      simp only [runCalls, hg] at h
      cases hd : decref s (some cb) with
      | error e => simp [hd] at h
      | ok s1 =>
        simp only [hd] at h
        cases hr : runCalls s1 (some cb) cs with
        | error e => simp [hr] at h
        | ok r1 =>
          obtain ⟨a, b2, ha, hb2, -, -, hcase⟩ := decref_inv hd
          cases ha
          rw [hb] at hb2
          cases hb2
          rcases hcase with ⟨hone, hbl⟩ | ⟨hne, hbl, -⟩
          · have hnone : s1.blocks cb = none := by rw [hbl]; exact upd_same _ _ _
            have := runCalls_released hnone cs r1 hr
            subst this
            trivial
          · have hlive : s1.blocks cb = some { b with mCount := b.mCount - 1 } := by
              rw [hbl]; exact upd_same _ _ _
            exact ih s1 { b with mCount := b.mCount - 1 } r1 hlive
              (by show 1 ≤ b.mCount - 1; omega) hr

/-- The run of the witness, evaluated: the three calls to `decref` observe 3, 2
and 1, and the last one destroys payload and block. -/
theorem runCalls_example :
    ∃ s1, runCalls demo_copy (some 1) [.incref, .decref, .decref, .decref]
        = .ok (s1, [3, 2, 1]) ∧
      s1.blocks 1 = none ∧ s1.freed = [1] ∧ s1.deleted = [some 0] :=
  ⟨_, rfl, rfl, rfl, rfl⟩

end Utils
